import Mathlib

/-!
Verification development for the sf-town simulation engine.

The TypeScript source is embedded shallowly:

* JavaScript numbers are modelled as exact rationals (`ℚ`).  All the
  arithmetic appearing in the embedded code paths is exact at the small
  magnitudes involved, so no floating-point rounding is modelled.
* Because the library addition/multiplication on `ℚ` is `@[irreducible]`,
  the embedding uses computable wrappers (`qadd`, `qsub`, `qmul`, `qdiv`,
  `qabs`, `qfloor`, `qint`, `qnat`) defined through `Rat.divInt`, which the
  kernel can evaluate.  Bridge lemmas below identify them with the ordinary
  field operations, so proofs reason over plain `ℚ`.
* Wall-clock reads (`Date.now()`) are modelled by the explicit `now`
  argument that the caller of the corresponding function holds.
* Mutable state (the pathfinding result cache, the scratch-table pool, the
  per-search `minDistances` table) is passed and returned explicitly.
* Console logging and the randomly sampled cache statistics log have no
  observable effect and are omitted.
-/

set_option linter.unusedVariables false

namespace SfTown

/-! ### Exact rational arithmetic wrappers -/

/-- Kernel-computable addition on `ℚ` (the library `Rat.add` is irreducible). -/
def qadd (a b : ℚ) : ℚ := Rat.divInt (a.num * b.den + b.num * a.den) (a.den * b.den)

/-- Kernel-computable subtraction on `ℚ`. -/
def qsub (a b : ℚ) : ℚ := Rat.divInt (a.num * b.den - b.num * a.den) (a.den * b.den)

/-- Kernel-computable multiplication on `ℚ`. -/
def qmul (a b : ℚ) : ℚ := Rat.divInt (a.num * b.num) (a.den * b.den)

/-- Kernel-computable division on `ℚ` (division by zero yields zero,
which never occurs in the embedded code: all divisors are fixed nonzero
constants). -/
def qdiv (a b : ℚ) : ℚ := Rat.divInt (a.num * b.den) (a.den * b.num)

/-- Kernel-computable absolute value on `ℚ`. -/
def qabs (a : ℚ) : ℚ := Rat.divInt |a.num| a.den

/-- Kernel-computable floor on `ℚ`, the model of JavaScript `Math.floor`. -/
def qfloor (a : ℚ) : ℤ := Rat.floor a

/-- Kernel-computable embedding of an integer into `ℚ`. -/
def qint (z : ℤ) : ℚ := Rat.divInt z 1

/-- Kernel-computable embedding of a natural number into `ℚ`. -/
def qnat (n : ℕ) : ℚ := Rat.divInt n 1

/-! ### Geometry

`convex/util/geometry.ts` is not part of the provided sources.
The functions below are modelled from the spec, which lists the pure
geometry utilities: distance, Manhattan distance, point equality and path
compression. -/

/-- A 2-D position, `convex/util/types.ts` `Point`. -/
structure Point where
  x : ℚ
  y : ℚ
deriving DecidableEq, Repr

/-- A 2-D direction, `convex/util/types.ts` `Vector`. -/
structure Vector where
  dx : ℚ
  dy : ℚ
deriving DecidableEq, Repr

/-- Modelled from the spec: exact point equality (`pointsEqual` in the
missing `convex/util/geometry.ts`): both coordinates agree. -/
def pointsEqual (p0 p1 : Point) : Bool :=
  decide (p0.x = p1.x) && decide (p0.y = p1.y)

/-- Modelled from the spec: Manhattan distance (`manhattanDistance` in the
missing `convex/util/geometry.ts`). -/
def manhattanDistance (p0 p1 : Point) : ℚ :=
  qadd (qabs (qsub p0.x p1.x)) (qabs (qsub p0.y p1.y))

/-- Modelled from the spec: the squared Euclidean distance.  The source
`distance` returns the Euclidean distance; every comparison the embedded
code makes with it is against a nonnegative constant, so the square
compares equivalently and stays inside `ℚ`. -/
def distanceSq (p0 p1 : Point) : ℚ :=
  qadd (qmul (qsub p0.x p1.x) (qsub p0.x p1.x)) (qmul (qsub p0.y p1.y) (qsub p0.y p1.y))

/-- Modelled from the spec: the Euclidean distance of two axis-aligned
points (equal on one coordinate), which is the absolute difference of the
other coordinate and hence `manhattanDistance`.  `findRoute` only measures
segment lengths between axis-aligned points, so this is exact there. -/
def axisDistance (p0 p1 : Point) : ℚ := manhattanDistance p0 p1

/-! ### The world data model -/

/-- A timed, non-blocking player activity.  The source field `until` is a
Lean keyword and is called `untilTime` here. -/
structure Activity where
  description : String
  emoji : String
  untilTime : ℚ
deriving DecidableEq, Repr

/-- Modelled from the spec: the tag of the pathfinding state of a mover
(`needsPath -> moving`); `convex/aiTown/player.ts` is not part of the
provided sources and only the `needsPath` arm is exercised here. -/
inductive PathfindingStateKind where
  | needsPath
  | moving (path : List Point)
deriving DecidableEq, Repr

/-- The `pathfinding` field armed by `movePlayer`. -/
structure Pathfinding where
  destination : Point
  started : ℚ
  state : PathfindingStateKind
deriving DecidableEq, Repr

/-- A player record with the fields the embedded operations touch. -/
structure Player where
  id : String
  position : Point
  facing : Vector
  speed : ℚ
  pathfinding : Option Pathfinding
  activity : Option Activity
deriving DecidableEq, Repr

/-- The status tag of a conversation participant. -/
inductive ParticipantStatus where
  | invited
  | walkingOver
  | participating
deriving DecidableEq, Repr

/-- A conversation: identity plus the participant map. -/
structure Conversation where
  id : String
  participants : List (String × ParticipantStatus)
deriving DecidableEq, Repr

/-- The live world: players and conversations. -/
structure World where
  players : List Player
  conversations : List Conversation
deriving DecidableEq, Repr

/-- The static world map, `convex/aiTown/worldMap.ts` (not in the provided
sources): integer dimensions and the object-tile layers, modelled from the
spec.  A layer is indexed column-first, `layer[x][y]`, as in
`blockedWithPositions`. -/
structure WorldMap where
  width : ℕ
  height : ℕ
  objectTiles : List (List (List ℤ))
deriving DecidableEq, Repr

/-- Well-formedness of a map: each layer is a `width`-long list of
`height`-long columns, so the in-bounds indexing performed by
`blockedWithPositions` never reads outside the arrays. -/
def WorldMap.WF (m : WorldMap) : Prop :=
  ∀ layer ∈ m.objectTiles, layer.length = m.width ∧ ∀ col ∈ layer, col.length = m.height

/-- The game handle passed to the movement functions. -/
structure Game where
  world : World
  worldMap : WorldMap
deriving DecidableEq, Repr

/-! ### Movement orchestration (`movePlayer`, `stopPlayer`) -/

/-- `stopPlayer`: clears pathfinding state and zeroes speed. -/
def stopPlayer (player : Player) : Player :=
  { player with pathfinding := none, speed := 0 }

/-- The error raised for a non-integral destination (the source includes
the serialized point in the message; the model keeps a fixed string). -/
def nonIntegralMsg : String := "Non-integral destination"

/-- The error raised when a participating player is moved without the
override flag. -/
def inConversationMsg : String :=
  "Cannot move when in a conversation. Leave the conversation first!"

/-- Whether some conversation holds this player with `participating`
status, as computed inline by `movePlayer`. -/
def playerParticipating (game : Game) (playerId : String) : Bool :=
  game.world.conversations.any fun c =>
    match (c.participants.find? fun e => decide (e.1 = playerId)) with
    | some e => decide (e.2 = ParticipantStatus.participating)
    | none => false

/-- `movePlayer` from `convex/aiTown/poi.ts`: validates the destination,
no-ops when already there, rejects participating movers unless overridden,
and otherwise arms `pathfinding` with `needsPath`.  It performs no route
search. -/
def movePlayer (game : Game) (now : ℚ) (player : Player) (destination : Point)
    (allowInConversation : Bool) : Except String Player :=
  if ¬(qint (qfloor destination.x) = destination.x ∧ qint (qfloor destination.y) = destination.y)
  then .error nonIntegralMsg
  else if pointsEqual player.position destination then .ok player
  else if playerParticipating game player.id ∧ ¬allowInConversation then .error inConversationMsg
  else .ok { player with pathfinding := some ⟨destination, now, .needsPath⟩ }

/-! ### Blocking (`blocked`, `blockedWithPositions`) -/

/-- Modelled from the spec: the fixed collision threshold constant from
`convex/constants.ts` (not in the provided sources).  The claims do not
depend on its value; three quarters of a tile is used. -/
def COLLISION_THRESHOLD : ℚ := Rat.divInt 3 4

/-- The obstacle test of one layer at a position: the tile
`layer[Math.floor(x)][Math.floor(y)]` differs from `-1`.  Out-of-range
reads return `-1` (empty); `blockedWithPositions` only reaches this test
for in-bounds positions, where a well-formed map indexes in range. -/
def tileOccupied (layer : List (List ℤ)) (p : Point) : Bool :=
  decide (¬((layer.getD (qfloor p.x).toNat []).getD (qfloor p.y).toNat (-1) = -1))

/-- `blockedWithPositions` from `convex/aiTown/poi.ts`: out-of-bounds,
obstacle-tile and player-proximity checks, in source order.  The `NaN`
guard of the source is vacuous over `ℚ` and is omitted; the Euclidean
proximity comparison is taken on squares, which is equivalent. -/
def blockedWithPositions (position : Point) (otherPositions : List Point) (map : WorldMap) :
    Option String :=
  if position.x < 0 ∨ position.y < 0 ∨ qnat map.width ≤ position.x ∨ qnat map.height ≤ position.y
  then some "out of bounds"
  else if map.objectTiles.any fun layer => tileOccupied layer position then some "world blocked"
  else if otherPositions.any fun other =>
      distanceSq other position < qmul COLLISION_THRESHOLD COLLISION_THRESHOLD
  then some "player"
  else none

/-- The positions of all players other than the mover. -/
def otherPlayerPositions (game : Game) (playerId : String) : List Point :=
  (game.world.players.filter fun p => ¬(p.id = playerId)).map Player.position

/-- `blocked` from `convex/aiTown/poi.ts` (`now` is accepted and unused,
as in the source). -/
def blocked (game : Game) (now : ℚ) (pos : Point) (playerId : String) : Option String :=
  blockedWithPositions pos (otherPlayerPositions game playerId) game.worldMap

/-! ### Path candidates and the per-search best-candidate table -/

/-- A pathfinding search node (`PathCandidate` in the source): position,
facing, arrival time, path length so far, cost (length plus heuristic) and
the back-pointer `prev`.  The optional back-pointer is split into the two
constructors `root` (no predecessor) and `step`. -/
inductive PathCandidate where
  | root (position : Point) (facing : Option Vector) (t : ℚ) (length : ℚ) (cost : ℚ)
  | step (position : Point) (facing : Option Vector) (t : ℚ) (length : ℚ) (cost : ℚ)
      (prev : PathCandidate)
deriving DecidableEq, Repr

/-- The position of the candidate. -/
def PathCandidate.position : PathCandidate → Point
  | .root p _ _ _ _ => p
  | .step p _ _ _ _ _ => p

/-- The facing of the candidate. -/
def PathCandidate.facing : PathCandidate → Option Vector
  | .root _ f _ _ _ => f
  | .step _ f _ _ _ _ => f

/-- The arrival time of the candidate. -/
def PathCandidate.t : PathCandidate → ℚ
  | .root _ _ t _ _ => t
  | .step _ _ t _ _ _ => t

/-- The path length of the candidate so far. -/
def PathCandidate.length : PathCandidate → ℚ
  | .root _ _ _ l _ => l
  | .step _ _ _ l _ _ => l

/-- The cost of the candidate (length plus Manhattan heuristic). -/
def PathCandidate.cost : PathCandidate → ℚ
  | .root _ _ _ _ c => c
  | .step _ _ _ _ c _ => c

/-- The scratch `minDistances` table.  In JavaScript it is one array of
arrays, but positions with a fractional coordinate index it through
non-integer property keys that live outside the array cells proper; the
model therefore splits it into the integer `grid` (the pooled cells that
`MinDistancesPool.get` clears) and the sparse `extras` holding the
fractional-keyed entries (which the clearing loop does not touch). -/
structure Table where
  grid : List (List (Option PathCandidate))
  extras : List (Point × PathCandidate)
deriving DecidableEq, Repr

/-- Whether both coordinates are integral, i.e. the position indexes the
integer grid rather than the fractional overlay. -/
def isGridPoint (p : Point) : Bool :=
  decide (p.x = qint (qfloor p.x)) && decide (p.y = qint (qfloor p.y))

/-- Reading `minDistances[position.y]?.[position.x]`; a missing cell reads
as `none`, like the JavaScript `undefined`. -/
def tableGet (t : Table) (p : Point) : Option PathCandidate :=
  if isGridPoint p then (t.grid.getD (qfloor p.y).toNat []).getD (qfloor p.x).toNat none
  else ((t.extras.find? fun e => decide (e.1 = p)).map (·.2))

/-- Writing `minDistances[position.y][position.x] = path`. -/
def tableSet (t : Table) (p : Point) (c : PathCandidate) : Table :=
  if isGridPoint p then
    let row := (t.grid.getD (qfloor p.y).toNat []).set (qfloor p.x).toNat (some c)
    { t with grid := t.grid.set (qfloor p.y).toNat row }
  else
    { t with extras :=
        if t.extras.any fun e => decide (e.1 = p)
        then t.extras.map fun e => if e.1 = p then (p, c) else e
        else t.extras ++ [(p, c)] }

/-- The inner body of the clearing loop: set cells `0 ≤ x < width` of a row to
`null`. -/
def clearRow : ℕ → List (Option PathCandidate) → List (Option PathCandidate)
  | 0, row => row
  | _ + 1, [] => []
  | n + 1, _ :: cs => none :: clearRow n cs

/-- The clearing loop of `MinDistancesPool.get`: set cells
`[y][x]`, `0 ≤ y < height`, `0 ≤ x < width`, to `null`. -/
def clearGrid : ℕ → ℕ → List (List (Option PathCandidate)) → List (List (Option PathCandidate))
  | 0, _, g => g
  | _ + 1, _, [] => []
  | h + 1, w, r :: rs => clearRow w r :: clearGrid h w rs

/-- The pool of scratch tables, keyed by nothing but searched by size. -/
abbrev PoolState := List Table

/-- The pool-entry predicate `p.length >= height && p[0]?.length >= width`. -/
def poolFits (width height : ℕ) (p : Table) : Bool :=
  decide (height ≤ p.grid.length) &&
    (match p.grid.head? with
     | some r => decide (width ≤ r.length)
     | none => false)

/-- The index of the pool entry `MinDistancesPool.get` uses (the length of
the pool when a fresh table is about to be appended). -/
def poolFoundIdx (pools : PoolState) (width height : ℕ) : ℕ :=
  match pools.findIdx? (poolFits width height) with
  | some i => i
  | none => pools.length

/-- `MinDistancesPool.get`: find (or allocate) a big-enough table, clear
its `width × height` cells, and return it together with the updated pool.
Only the integer grid cells are cleared; fractional-keyed `extras` survive,
exactly as the JavaScript clearing loop leaves non-integer property keys in
place. -/
def minDistancesPoolGet (pools : PoolState) (width height : ℕ) : Table × PoolState :=
  match pools.findIdx? (poolFits width height) with
  | some i =>
    let p := pools.getD i ⟨[], []⟩
    let cleared : Table := ⟨clearGrid height width p.grid, p.extras⟩
    (cleared, pools.set i cleared)
  | none =>
    let fresh : Table := ⟨List.replicate height (List.replicate width none), []⟩
    let cleared : Table := ⟨clearGrid height width fresh.grid, fresh.extras⟩
    (cleared, pools ++ [cleared])

/-! ### The pathfinding result cache -/

/-- The coarse world-state fingerprint: the source interpolates player
count, conversation count and the 1-second time bucket into a string; the
string is injective on the triple, so it is modelled as the triple. -/
structure WorldHash where
  players : ℕ
  conversations : ℕ
  bucket : ℤ
deriving DecidableEq, Repr

/-- `PathCacheKey`: rounded start position, integral destination and the
world-state fingerprint.  `keyToString` is injective on these keys, so the
map is modelled as keyed by the structure itself. -/
structure PathCacheKey where
  startX : ℚ
  startY : ℚ
  destX : ℚ
  destY : ℚ
  worldStateHash : WorldHash
deriving DecidableEq, Repr

/-- One waypoint of a returned path (`PathComponent`). -/
structure PathComponent where
  position : Point
  t : ℚ
  facing : Vector
deriving DecidableEq, Repr

/-- A compressed path (`Path`). -/
abbrev Path := List PathComponent

/-- `CachedPathResult`. -/
structure CachedPathResult where
  path : Option Path
  newDestination : Option Point
  timestamp : ℚ
  hitCount : ℕ
deriving DecidableEq, Repr

/-- The `PathfindingCache` contents: an insertion-ordered association list,
the model of a JavaScript `Map` (keys unique, iteration in insertion
order). -/
abbrev CacheState := List (PathCacheKey × CachedPathResult)

/-- The size cap `maxSize`. -/
def cacheMaxSize : ℕ := 100

/-- The entry time-to-live `maxAge`, in milliseconds. -/
def cacheMaxAge : ℚ := 5000

/-- `Map.get` on the model. -/
def cacheLookup (cache : CacheState) (key : PathCacheKey) : Option CachedPathResult :=
  (cache.find? fun e => decide (e.1 = key)).map (·.2)

/-- `Map.delete` on the model. -/
def cacheErase (cache : CacheState) (key : PathCacheKey) : CacheState :=
  cache.filter fun e => !(decide (e.1 = key))

/-- `PathfindingCache.get`: miss on absence; expire (and delete) entries
older than `maxAge`; on a hit, re-insert the entry at the back with its
hit count bumped (the original entry is returned). -/
def cacheGet (cache : CacheState) (now : ℚ) (key : PathCacheKey) :
    Option CachedPathResult × CacheState :=
  match cacheLookup cache key with
  | none => (none, cache)
  | some result =>
    if cacheMaxAge < qsub now result.timestamp then (none, cacheErase cache key)
    else (some result, cacheErase cache key ++ [(key, { result with hitCount := result.hitCount + 1 })])

/-- `Map.set` on the model: replace in place when the key is present,
append otherwise. -/
def cacheInsert (cache : CacheState) (key : PathCacheKey) (entry : CachedPathResult) : CacheState :=
  if cache.any fun e => decide (e.1 = key)
  then cache.map fun e => if e.1 = key then (key, entry) else e
  else cache ++ [(key, entry)]

/-- `PathfindingCache.set`: evict the first (oldest-inserted) entry when
the size cap is reached, then store the result with a fresh timestamp and
zero hit count. -/
def cacheSet (cache : CacheState) (now : ℚ) (key : PathCacheKey)
    (path : Option Path) (newDestination : Option Point) : CacheState :=
  let evicted := if cacheMaxSize ≤ cache.length then cache.drop 1 else cache
  cacheInsert evicted key ⟨path, newDestination, now, 0⟩

/-! ### The pathfinding search (`findRoute`) -/

/-- Modelled from the spec: the movement speed constant from
`data/characters.ts` (not in the provided sources), in tiles per second.
The claims do not depend on its value. -/
def movementSpeed : ℚ := Rat.divInt 3 4

/-- The neighbor generation of `explore` inside `findRoute`: off-grid on an
axis first snaps to the two grid lines of that axis; a fully on-grid
position moves to the four adjacent grid points. -/
def genNeighbors (p : Point) : List (Point × Vector) :=
  (if p.x = qint (qfloor p.x) then []
   else [(⟨qint (qfloor p.x), p.y⟩, ⟨-1, 0⟩), (⟨qadd (qint (qfloor p.x)) 1, p.y⟩, ⟨1, 0⟩)]) ++
  (if p.y = qint (qfloor p.y) then []
   else [(⟨p.x, qint (qfloor p.y)⟩, ⟨0, -1⟩), (⟨p.x, qadd (qint (qfloor p.y)) 1⟩, ⟨0, 1⟩)]) ++
  (if p.x = qint (qfloor p.x) ∧ p.y = qint (qfloor p.y) then
    [(⟨qadd p.x 1, p.y⟩, ⟨1, 0⟩), (⟨qsub p.x 1, p.y⟩, ⟨-1, 0⟩),
     (⟨p.x, qadd p.y 1⟩, ⟨0, 1⟩), (⟨p.x, qsub p.y 1⟩, ⟨0, -1⟩)]
   else [])

/-- The candidate built for an unblocked neighbor: segment length, arrival
time, accumulated length and cost with the Manhattan heuristic. -/
def neighborCandidate (destination : Point) (current : PathCandidate) (n : Point × Vector) :
    PathCandidate :=
  let segmentLength := axisDistance current.position n.1
  let length := qadd current.length segmentLength
  let remaining := manhattanDistance n.1 destination
  .step n.1 (some n.2) (qadd current.t (qmul (qdiv segmentLength movementSpeed) 1000))
    length (qadd length remaining) current

/-- One step of the neighbor loop of `explore`: skip blocked neighbors, skip
candidates dominated by the stored per-cell best, otherwise store and keep
the candidate. -/
def exploreStep (game : Game) (now : ℚ) (playerId : String) (destination : Point)
    (current : PathCandidate) (acc : List PathCandidate × Table) (n : Point × Vector) :
    List PathCandidate × Table :=
  if ¬(blocked game now n.1 playerId = none) then acc
  else
    let path := neighborCandidate destination current n
    match tableGet acc.2 n.1 with
    | some existingMin =>
      if existingMin.cost ≤ path.cost then acc
      else (acc.1 ++ [path], tableSet acc.2 n.1 path)
    | none => (acc.1 ++ [path], tableSet acc.2 n.1 path)

/-- `explore` from `findRoute`: generate neighbors and fold the loop body
over them, threading the `minDistances` table. -/
def explore (game : Game) (now : ℚ) (playerId : String) (destination : Point)
    (current : PathCandidate) (table : Table) : List PathCandidate × Table :=
  (genNeighbors current.position).foldl (exploreStep game now playerId destination current)
    ([], table)

/-- Modelled from the spec: `MinHeap.push` of the missing
`convex/util/minheap.ts`, as an ordered insertion keyed by `cost`. -/
def heapPush (c : PathCandidate) : List PathCandidate → List PathCandidate
  | [] => [c]
  | x :: xs => if c.cost < x.cost then c :: x :: xs else x :: heapPush c xs

/-- Modelled from the spec: `MinHeap.pop`, returning a minimum-cost
element (the front of the ordered list) or `none` when empty. -/
def heapPop : List PathCandidate → Option PathCandidate × List PathCandidate
  | [] => (none, [])
  | x :: xs => (some x, xs)

/-- The mutable state of the search loop of `findRoute`.  `explored` is a ghost
trace of every candidate the loop expanded, used to state that the best
candidate is the closest explored one; it does not influence the search. -/
structure SearchState where
  current : Option PathCandidate
  bestCandidate : PathCandidate
  explored : List PathCandidate
  heap : List PathCandidate
  minDistances : Table
deriving DecidableEq, Repr

/-- How the `while` loop of `findRoute` ends: destination reached, frontier
exhausted, or the modelling fuel ran out (the stand-in of the model for a
longer-running search). -/
inductive SearchOutcome where
  | found (candidate : PathCandidate) (minDistances : Table)
  | exhausted (bestCandidate : PathCandidate) (explored : List PathCandidate)
      (minDistances : Table)
  | outOfFuel (st : SearchState)
deriving DecidableEq, Repr

/-- The `while (current)` loop of `findRoute`: stop on the destination,
track the closest-by-heuristic candidate, expand the current candidate,
push the new candidates and pop the next cheapest. -/
def searchLoop (game : Game) (now : ℚ) (playerId : String) (destination : Point) :
    ℕ → SearchState → SearchOutcome
  | 0, st => .outOfFuel st
  | fuel + 1, st =>
    match st.current with
    | none => .exhausted st.bestCandidate st.explored st.minDistances
    | some current =>
      if pointsEqual current.position destination then .found current st.minDistances
      else
        let explored := st.explored ++ [current]
        let best :=
          if manhattanDistance current.position destination <
              manhattanDistance st.bestCandidate.position destination
          then current else st.bestCandidate
        let step := explore game now playerId destination current st.minDistances
        let heap := step.1.foldl (fun h c => heapPush c h) st.heap
        let popped := heapPop heap
        searchLoop game now playerId destination fuel
          ⟨popped.1, best, explored, popped.2, step.2⟩

/-- The dense-path reconstruction loop of `findRoute`: walk the `prev`
chain, pairing each candidate with the facing carried over from the
previously pushed node (the running `facing` variable of the source). -/
def buildDense : PathCandidate → Vector → List PathComponent
  | .root pos _ t _ _, facing => [⟨pos, t, facing⟩]
  | .step pos f t _ _ prev, facing => ⟨pos, t, facing⟩ :: buildDense prev (f.getD facing)

/-- Modelled from the spec: collinearity of three points, used by the path
compression of the missing `convex/util/geometry.ts`. -/
def collinear (p0 p1 p2 : Point) : Bool :=
  decide (qmul (qsub p1.x p0.x) (qsub p2.y p0.y) = qmul (qsub p1.y p0.y) (qsub p2.x p0.x))

/-- Modelled from the spec: the tail loop of `compressPath`, dropping
interior waypoints while the segment stays collinear. -/
def compressAux (anchor prev : PathComponent) : List PathComponent → List PathComponent
  | [] => [prev]
  | c :: rest =>
    if collinear anchor.position prev.position c.position then compressAux anchor c rest
    else prev :: compressAux prev c rest

/-- Modelled from the spec: `compressPath` of the missing
`convex/util/geometry.ts` — merge consecutive collinear segments, keeping
endpoints. -/
def compressPath : List PathComponent → List PathComponent
  | [] => []
  | [a] => [a]
  | a :: b :: rest => a :: compressAux a b rest

/-- The result returned by `findRoute`. -/
structure RouteResult where
  path : Option Path
  newDestination : Option Point
deriving DecidableEq, Repr

/-- The cache key computed at the top of `findRoute`: start rounded down
to hundredths, destination, and the coarse world-state fingerprint. -/
def routeCacheKey (game : Game) (now : ℚ) (player : Player) (destination : Point) :
    PathCacheKey where
  startX := qdiv (qint (qfloor (qmul player.position.x 100))) 100
  startY := qdiv (qint (qfloor (qmul player.position.y 100))) 100
  destX := destination.x
  destY := destination.y
  worldStateHash :=
    ⟨game.world.players.length, game.world.conversations.length, qfloor (qdiv now 1000)⟩

/-- The initial candidate of the search: the position and facing of the mover,
zero length, heuristic cost. -/
def startCandidate (now : ℚ) (player : Player) (destination : Point) : PathCandidate :=
  .root player.position (some player.facing) now 0
    (manhattanDistance player.position destination)

/-- Path reconstruction and compression for a final candidate. -/
def routeFromCandidate (current : PathCandidate) (newDestination : Option Point) : RouteResult :=
  { path := some (compressPath (buildDense current (current.facing.getD ⟨0, 0⟩)).reverse)
    newDestination := newDestination }

/-- `findRoute` from `convex/aiTown/poi.ts`.  On a cache hit the cached
result is returned unchanged.  Otherwise a scratch table is taken from the
pool, the A*-style loop runs, and: a reached destination yields a path
with no revised destination; an exhausted frontier with zero progress
yields `null` (uncached); an exhausted frontier with progress yields the
path of the best candidate and its position as the revised destination.  The
first component is `none` only when the modelling fuel ran out. -/
def findRoute (game : Game) (now : ℚ) (player : Player) (destination : Point)
    (cache : CacheState) (pool : PoolState) (fuel : ℕ) :
    Option (Option RouteResult) × CacheState × PoolState :=
  let key := routeCacheKey game now player destination
  let got := cacheGet cache now key
  match got.1 with
  | some cached => (some (some ⟨cached.path, cached.newDestination⟩), got.2, pool)
  | none =>
    let idx := poolFoundIdx pool game.worldMap.width game.worldMap.height
    let gp := minDistancesPoolGet pool game.worldMap.width game.worldMap.height
    let start := startCandidate now player destination
    match searchLoop game now player.id destination fuel ⟨some start, start, [], [], gp.1⟩ with
    | .outOfFuel st => (none, got.2, gp.2.set idx st.minDistances)
    | .found current table =>
      let result := routeFromCandidate current none
      (some (some result), cacheSet got.2 now key result.path result.newDestination,
        gp.2.set idx table)
    | .exhausted best _ table =>
      if best.length = 0 then (some none, got.2, gp.2.set idx table)
      else
        let result := routeFromCandidate best (some best.position)
        (some (some result), cacheSet got.2 now key result.path result.newDestination,
          gp.2.set idx table)

/-! ### Input submission with bounded retry (`sendInputWithRetry`) -/

/-- Whether `needle` is a prefix of `haystack` (character lists). -/
def startsWithSeq : List Char → List Char → Bool
  | [], _ => true
  | _ :: _, [] => false
  | a :: as, b :: bs => a == b && startsWithSeq as bs

/-- Whether `needle` occurs contiguously inside `haystack`, the model of
`String.prototype.includes`. -/
def containsSeq (needle : List Char) : List Char → Bool
  | [] => startsWithSeq needle []
  | l@(_ :: rest) => startsWithSeq needle l || containsSeq needle rest

/-- The substring `sendInputWithRetry` looks for to classify a failure as
an optimistic-concurrency write conflict. -/
def occMarker : String := "Documents read from or written to the \"inputs\" table changed"

/-- The conflict test `message.includes(...)`. -/
def isOCCError (message : String) : Bool := containsSeq occMarker.data message.data

/-- The retry loop of `sendInputWithRetry`.  The mutation is modelled as a
function of the invocation index; `remaining` counts the retries still
allowed (`maxAttempts - 1 - attempt` in the source, so the stop
condition `!isOCC || attempt >= maxAttempts - 1` becomes `!isOCC` or
`remaining = 0`); `calls` counts invocations made so far.  The jittered
backoff sleeps do not influence the returned value or the number of
invocations and are not modelled.  Returns the final outcome together with
the total number of mutation invocations. -/
def sendInputRetryGo (mu : ℕ → Except String α) (remaining calls : ℕ) :
    Except String α × ℕ :=
  match mu calls with
  | .ok r => (.ok r, calls + 1)
  | .error e =>
    match remaining with
    | 0 => (.error e, calls + 1)
    | r + 1 =>
      if isOCCError e then sendInputRetryGo mu r (calls + 1) else (.error e, calls + 1)

/-- `sendInputWithRetry` from `convex/aiTown/agentOperations.ts` (default
`maxAttempts = 8` at the call sites). -/
def sendInputWithRetry (mu : ℕ → Except String α) (maxAttempts : ℕ) : Except String α × ℕ :=
  sendInputRetryGo mu (maxAttempts - 1) 0

/-! ### The agent decision cycle (`agentDoSomething`) -/

/-- Modelled from the spec: the conversation cooldown window from
`convex/constants.ts` (not in the provided sources); the claims do not
depend on its value. -/
def CONVERSATION_COOLDOWN : ℚ := 15000

/-- Modelled from the spec: the activity cooldown window from
`convex/constants.ts` (not in the provided sources). -/
def ACTIVITY_COOLDOWN : ℚ := 10000

/-- An entry of the `ACTIVITIES` constant. -/
structure ActivityTemplate where
  description : String
  emoji : String
  duration : ℚ
deriving DecidableEq, Repr

/-- Modelled from the spec: the idle-activity sheet from
`convex/constants.ts` (not in the provided sources); representative
entries, the claims do not depend on their content. -/
def ACTIVITIES : List ActivityTemplate :=
  [⟨"reading a book", "book", 60000⟩, ⟨"daydreaming", "cloud", 60000⟩,
   ⟨"gardening", "plant", 60000⟩]

/-- The fields of the serialized agent that `agentDoSomething` reads. -/
structure SerializedAgent where
  id : String
  lastConversation : Option ℚ
  lastInviteAttempt : Option ℚ
deriving DecidableEq, Repr

/-- A point-of-interest document as returned by `listPointsOfInterest`. -/
structure PoiDoc where
  id : String
  name : String
deriving DecidableEq, Repr

/-- The argument payload of a `finishDoSomething` input. -/
structure FinishArgs where
  operationId : String
  agentId : String
  destination : Option Point
  activity : Option Activity
  invitee : Option String
deriving DecidableEq, Repr

/-- The externally visible effects one `agentDoSomething` run produces, in
order: point-of-interest interactions dispatched and inputs submitted. -/
inductive AgentEffect where
  | interactWithPoi (poiId : String)
  | submitInput (name : String) (args : FinishArgs)
deriving DecidableEq, Repr

/-- The random draws one `agentDoSomething` run consumes, supplied
explicitly (`Math.random()` in the source).  Draws lie in `[0, 1)`. -/
structure AgentRandom where
  poiRoll : ℚ
  poiPick : ℚ
  activityPick : ℚ
  wanderX : ℚ
  wanderY : ℚ
deriving DecidableEq, Repr

/-- `wanderDestination`: a random interior tile, at least one tile from
the map edge. -/
def wanderDestination (map : WorldMap) (rx ry : ℚ) : Point :=
  ⟨qadd 1 (qint (qfloor (qmul rx (qnat (map.width - 2))))),
   qadd 1 (qint (qfloor (qmul ry (qnat (map.height - 2)))))⟩

/-- The `justLeftConversation` test: inside the conversation cooldown
window after the last conversation. -/
def justLeftConversation (agent : SerializedAgent) (now : ℚ) : Bool :=
  match agent.lastConversation with
  | some t => decide (now < qadd t CONVERSATION_COOLDOWN)
  | none => false

/-- The `recentlyAttemptedInvite` test. -/
def recentlyAttemptedInvite (agent : SerializedAgent) (now : ℚ) : Bool :=
  match agent.lastInviteAttempt with
  | some t => decide (now < qadd t CONVERSATION_COOLDOWN)
  | none => false

/-- The `recentActivity` test: inside the activity cooldown window after
the expiry of the current activity. -/
def recentActivity (player : Player) (now : ℚ) : Bool :=
  match player.activity with
  | some a => decide (now < qadd a.untilTime ACTIVITY_COOLDOWN)
  | none => false

/-- A uniform pick `l[Math.floor(r * l.length)]` for a draw `r ∈ [0,1)`. -/
def pickFrom (l : List α) (r : ℚ) (dflt : α) : α :=
  l.getD (qfloor (qmul r (qnat l.length))).toNat dflt

/-- The invitee `agentDoSomething` attaches when the player is already
moving (or when falling through to the invite submission): skipped during
the cooldown windows, otherwise the candidate found by
`findConversationCandidate` (an external query, supplied as an argument). -/
def chosenInvitee (agent : SerializedAgent) (now : ℚ) (candidate : Option String) :
    Option String :=
  if justLeftConversation agent now || recentlyAttemptedInvite agent now then none
  else candidate

/-- `agentDoSomething` from `convex/aiTown/agentOperations.ts`, as the
list of externally visible effects of one decision cycle.  The sleeps are
unobservable and omitted; the point-of-interest list (a query result) and
the conversation candidate (the `findConversationCandidate` query result)
are supplied as arguments.  When the player has a `pathfinding` state the
wander/POI/activity block is skipped and the run falls through to the
invite submission. -/
def agentDoSomething (player : Player) (agent : SerializedAgent) (map : WorldMap) (now : ℚ)
    (pois : List PoiDoc) (rand : AgentRandom) (candidate : Option String)
    (operationId : String) : List AgentEffect :=
  match player.pathfinding with
  | none =>
    if recentActivity player now || justLeftConversation agent now then
      [.submitInput "finishDoSomething"
        ⟨operationId, agent.id, some (wanderDestination map rand.wanderX rand.wanderY),
          none, none⟩]
    else if 0 < pois.length ∧ rand.poiRoll < qdiv 33 100 then
      let poi := pickFrom pois rand.poiPick ⟨"", ""⟩
      [.interactWithPoi poi.id,
       .submitInput "finishDoSomething"
        ⟨operationId, agent.id, none,
          some ⟨"Thinking about " ++ poi.name, "compass", qadd now 2000⟩, none⟩]
    else
      let act := pickFrom ACTIVITIES rand.activityPick ⟨"", "", 0⟩
      [.submitInput "finishDoSomething"
        ⟨operationId, agent.id, none,
          some ⟨act.description, act.emoji, qadd now act.duration⟩, none⟩]
  | some _ =>
    [.submitInput "finishDoSomething"
      ⟨operationId, agent.id, none, none, chosenInvitee agent now candidate⟩]

/-! ### Point-of-interest tile assignment -/

/-- The tile-coordinate computation of `importPointsOfInterest` in
`convex/aiTown/poi.ts`: hash the place id (`charCodeAt` is modelled by the
code point of the character, which agrees on the basic plane), clamp the
interior extent, and place the point inside the map interior.
`Math.floor(hash / 997)` on a nonnegative hash is floor division; the
JavaScript `%` on nonnegative operands is `Int.emod`. -/
def importPoiTileCoords (placeId : String) (width height : ℤ) : ℤ × ℤ :=
  let w := max 1 (width - 2)
  let h := max 1 (height - 2)
  let hash := placeId.data.foldl (fun acc ch => acc * 31 + (ch.toNat : ℤ)) 7
  (1 + |hash| % w, 1 + |Int.fdiv hash 997| % h)

/-- The tile-coordinate computation of the `backfillPoiTileCoordinates`
migration in `convex/migrations/poi.ts`, transcribed from that site. -/
def backfillPoiTileCoords (placeId : String) (width height : ℤ) : ℤ × ℤ :=
  let w := max 1 (width - 2)
  let h := max 1 (height - 2)
  let hash := placeId.data.foldl (fun acc ch => acc * 31 + (ch.toNat : ℤ)) 7
  (1 + |hash| % w, 1 + |Int.fdiv hash 997| % h)

/-- Consistency of a cache state with the single clock: every entry was
stored by `findRoute` at the time recorded in its timestamp, so the
1-second bucket of that timestamp is the one carried by the key of the entry.
`cacheSet` as called by `findRoute` only creates such entries. -/
def CacheWF (cache : CacheState) : Prop :=
  ∀ e ∈ cache, qfloor (qdiv e.2.timestamp 1000) = e.1.worldStateHash.bucket

/-! ## Bridge lemmas for the computable rational arithmetic -/

theorem qadd_eq (a b : ℚ) : qadd a b = a + b := by
  rw [qadd, Rat.divInt_eq_div]
  conv_rhs => rw [← Rat.num_div_den a, ← Rat.num_div_den b]
  have ha : ((a.den : ℚ)) ≠ 0 := by positivity
  have hb : ((b.den : ℚ)) ≠ 0 := by positivity
  field_simp

theorem qsub_eq (a b : ℚ) : qsub a b = a - b := by
  rw [qsub, Rat.divInt_eq_div]
  conv_rhs => rw [← Rat.num_div_den a, ← Rat.num_div_den b]
  have ha : ((a.den : ℚ)) ≠ 0 := by positivity
  have hb : ((b.den : ℚ)) ≠ 0 := by positivity
  field_simp
  ring

theorem qmul_eq (a b : ℚ) : qmul a b = a * b := by
  rw [qmul, Rat.divInt_eq_div]
  conv_rhs => rw [← Rat.num_div_den a, ← Rat.num_div_den b]
  have ha : ((a.den : ℚ)) ≠ 0 := by positivity
  have hb : ((b.den : ℚ)) ≠ 0 := by positivity
  field_simp

theorem qdiv_eq (a b : ℚ) : qdiv a b = a / b := by
  rw [qdiv, Rat.divInt_eq_div]
  conv_rhs => rw [← Rat.num_div_den a, ← Rat.num_div_den b]
  have ha : ((a.den : ℚ)) ≠ 0 := by positivity
  have hb : ((b.den : ℚ)) ≠ 0 := by positivity
  rcases eq_or_ne b.num 0 with h0 | h0
  · simp [h0]
  · have hbn : ((b.num : ℚ)) ≠ 0 := by exact_mod_cast h0
    field_simp

theorem qabs_eq (a : ℚ) : qabs a = |a| := by
  rw [qabs, Rat.divInt_eq_div]
  push_cast
  rcases le_or_lt 0 a.num with h | h
  · rw [abs_of_nonneg (show (0:ℚ) ≤ a.num by exact_mod_cast h), Rat.num_div_den,
      abs_of_nonneg (Rat.num_nonneg.mp h)]
  · rw [abs_of_neg (show (a.num:ℚ) < 0 by exact_mod_cast h), neg_div, Rat.num_div_den,
      abs_of_neg (Rat.num_neg.mp h)]

theorem qfloor_eq (a : ℚ) : qfloor a = ⌊a⌋ := by
  rw [qfloor, Rat.floor_def', Rat.floor_def]

theorem qint_eq (z : ℤ) : qint z = (z : ℚ) := by
  rw [qint, Rat.divInt_eq_div]
  push_cast
  exact div_one _

theorem qnat_eq (n : ℕ) : qnat n = (n : ℚ) := by
  rw [qnat, Rat.divInt_eq_div]
  push_cast
  exact div_one _

theorem manhattanDistance_eq (p0 p1 : Point) :
    manhattanDistance p0 p1 = |p0.x - p1.x| + |p0.y - p1.y| := by
  rw [manhattanDistance, qadd_eq, qabs_eq, qabs_eq, qsub_eq, qsub_eq]

/-! ## C10: the tile computation of the backfill migration refines the import -/

/-- C10: for every place id and every map at least 3 tiles wide and high,
the tile-coordinate computation of the `backfillPoiTileCoordinates`
migration produces exactly the pair the `importPointsOfInterest`
computation produces, and the pair lies in the map interior
(`1 ≤ tileX ≤ width - 2`, `1 ≤ tileY ≤ height - 2`). -/
theorem backfill_tile_matches_import (placeId : String) (width height : ℤ)
    (hw : 3 ≤ width) (hh : 3 ≤ height) :
    backfillPoiTileCoords placeId width height = importPoiTileCoords placeId width height ∧
    1 ≤ (importPoiTileCoords placeId width height).1 ∧
    (importPoiTileCoords placeId width height).1 ≤ width - 2 ∧
    1 ≤ (importPoiTileCoords placeId width height).2 ∧
    (importPoiTileCoords placeId width height).2 ≤ height - 2 := by
  refine ⟨rfl, ?_, ?_, ?_, ?_⟩ <;>
    simp only [importPoiTileCoords, max_eq_right (by omega : (1:ℤ) ≤ width - 2),
      max_eq_right (by omega : (1:ℤ) ≤ height - 2)]
  · have := Int.emod_nonneg
      |(placeId.data.foldl (fun acc ch => acc * 31 + (ch.toNat : ℤ)) 7)|
      (show width - 2 ≠ 0 by omega)
    omega
  · have := Int.emod_lt_of_pos
      |(placeId.data.foldl (fun acc ch => acc * 31 + (ch.toNat : ℤ)) 7)|
      (show (0:ℤ) < width - 2 by omega)
    omega
  · have := Int.emod_nonneg
      |Int.fdiv (placeId.data.foldl (fun acc ch => acc * 31 + (ch.toNat : ℤ)) 7) 997|
      (show height - 2 ≠ 0 by omega)
    omega
  · have := Int.emod_lt_of_pos
      |Int.fdiv (placeId.data.foldl (fun acc ch => acc * 31 + (ch.toNat : ℤ)) 7) 997|
      (show (0:ℤ) < height - 2 by omega)
    omega

/-- Witness for C10 at a concrete place id and map size. -/
theorem backfill_tile_matches_import_witness :
    backfillPoiTileCoords "abc" 10 10 = importPoiTileCoords "abc" 10 10 ∧
    1 ≤ (importPoiTileCoords "abc" 10 10).1 ∧
    (importPoiTileCoords "abc" 10 10).1 ≤ 10 - 2 ∧
    1 ≤ (importPoiTileCoords "abc" 10 10).2 ∧
    (importPoiTileCoords "abc" 10 10).2 ≤ 10 - 2 :=
  backfill_tile_matches_import "abc" 10 10 (by decide) (by decide)

/-! ## C4: bounded retry on write conflicts -/

/-- The retry loop under permanent conflicts: every remaining attempt is
consumed, the number of invocations is `remaining + 1`, and the error of
the final invocation is propagated. -/
theorem sendInputRetryGo_all_conflicts (mu : ℕ → Except String α)
    (hfail : ∀ i, ∃ e, mu i = .error e ∧ isOCCError e = true) :
    ∀ remaining calls, ∃ e, mu (calls + remaining) = .error e ∧
      sendInputRetryGo mu remaining calls = (.error e, calls + remaining + 1) := by
  intro remaining
  induction remaining with
  | zero =>
    intro calls
    obtain ⟨e, he, hocc⟩ := hfail calls
    exact ⟨e, by simpa using he, by simp [sendInputRetryGo, he]⟩
  | succ r ih =>
    intro calls
    obtain ⟨e, he, hocc⟩ := hfail calls
    obtain ⟨e2, he2, hgo⟩ := ih (calls + 1)
    refine ⟨e2, ?_, ?_⟩
    · rw [show calls + (r + 1) = calls + 1 + r by omega]
      exact he2
    · rw [sendInputRetryGo, he]
      simp only [hocc, if_true]
      rw [hgo]
      refine congrArg _ ?_
      omega

/-- C4: if the mutation always fails with an optimistic-concurrency write
conflict, `sendInputWithRetry` invokes it exactly `maxAttempts` times and
then propagates the final error; an error that is not a write conflict is
propagated after a single invocation, with no retry. -/
theorem sendInputWithRetry_retry_bound (mu : ℕ → Except String α) (maxAttempts : ℕ)
    (hmax : 1 ≤ maxAttempts) :
    ((∀ i, ∃ e, mu i = .error e ∧ isOCCError e = true) →
      (sendInputWithRetry mu maxAttempts).2 = maxAttempts ∧
      ∀ e, mu (maxAttempts - 1) = .error e →
        (sendInputWithRetry mu maxAttempts).1 = .error e) ∧
    (∀ e, mu 0 = .error e → isOCCError e = false →
      sendInputWithRetry mu maxAttempts = (.error e, 1)) := by
  constructor
  · intro hfail
    obtain ⟨e0, he0, hgo⟩ := sendInputRetryGo_all_conflicts mu hfail (maxAttempts - 1) 0
    rw [show 0 + (maxAttempts - 1) = maxAttempts - 1 by omega] at he0
    constructor
    · rw [sendInputWithRetry, hgo]
      omega
    · intro e he
      rw [sendInputWithRetry, hgo]
      rw [he0] at he
      exact congrArg Except.error (Except.error.inj he)
  · intro e he hocc
    rw [sendInputWithRetry]
    cases hm : maxAttempts - 1 with
    | zero => simp [sendInputRetryGo, he]
    | succ r => simp [sendInputRetryGo, he, hocc]

/-- Witness for C4: a mutation that always reports the conflict marker is
invoked exactly 8 times and its error is propagated; a non-conflict error
is propagated after one invocation. -/
theorem sendInputWithRetry_retry_bound_witness :
    (sendInputWithRetry (fun _ => (Except.error occMarker : Except String Unit)) 8).2 = 8 ∧
    (sendInputWithRetry (fun _ => (Except.error occMarker : Except String Unit)) 8).1 =
      .error occMarker ∧
    sendInputWithRetry (fun _ => (Except.error "boom" : Except String Unit)) 8 =
      (.error "boom", 1) := by
  have h1 := sendInputWithRetry_retry_bound
    (fun _ => (Except.error occMarker : Except String Unit)) 8 (by decide)
  have h2 := sendInputWithRetry_retry_bound
    (fun _ => (Except.error "boom" : Except String Unit)) 8 (by decide)
  have hall : ∀ i : ℕ, ∃ e : String,
      (Except.error occMarker : Except String Unit) = Except.error e ∧ isOCCError e = true := by
    intro i
    exact ⟨occMarker, rfl, by decide⟩
  exact ⟨(h1.1 hall).1, (h1.1 hall).2 occMarker rfl, h2.2 "boom" rfl (by decide)⟩

/-! ## C5 and C8: the `movePlayer` contract -/

/-- C5: `movePlayer` errors on every non-integral destination; for an
integral destination different from the current position it errors exactly
when the mover participates in a conversation and the override is unset;
in the remaining case it returns the player unchanged except that
`pathfinding` is armed with `needsPath` and the given destination — in
particular it performs no route search. -/
theorem movePlayer_contract (game : Game) (now : ℚ) (player : Player) (destination : Point)
    (allow : Bool) :
    (¬(qint (qfloor destination.x) = destination.x ∧
        qint (qfloor destination.y) = destination.y) →
      movePlayer game now player destination allow = .error nonIntegralMsg) ∧
    ((qint (qfloor destination.x) = destination.x ∧
        qint (qfloor destination.y) = destination.y) →
      pointsEqual player.position destination = false →
      (((∃ e, movePlayer game now player destination allow = .error e) ↔
          (playerParticipating game player.id = true ∧ allow = false)) ∧
        (¬(playerParticipating game player.id = true ∧ allow = false) →
          movePlayer game now player destination allow =
            .ok { player with pathfinding := some ⟨destination, now, .needsPath⟩ }))) := by
  constructor
  · intro h
    rw [movePlayer, if_pos h]
  · intro hint heq
    rw [movePlayer, if_neg (by simpa using hint)]
    rw [if_neg (by simp [heq])]
    constructor
    · constructor
      · rintro ⟨e, he⟩
        by_contra hc
        rw [if_neg ?_] at he
        · exact absurd he (by simp)
        · intro ⟨hpart, hallow⟩
          exact hc ⟨hpart, by simpa using hallow⟩
      · rintro ⟨hpart, hallow⟩
        refine ⟨inConversationMsg, ?_⟩
        rw [if_pos ⟨hpart, by simp [hallow]⟩]
    · intro hc
      rw [if_neg ?_]
      · intro ⟨hpart, hallow⟩
        exact hc ⟨hpart, by simpa using hallow⟩

/-- Witness for C5: the three branches at concrete inputs — a fractional
destination errors, a participating mover errors without the override, a
free mover gets `needsPath` armed. -/
theorem movePlayer_contract_witness :
    movePlayer ⟨⟨[], []⟩, ⟨10, 10, []⟩⟩ 0 ⟨"p1", ⟨2, 2⟩, ⟨1, 0⟩, 0, none, none⟩
      ⟨qdiv 1 2, 3⟩ false = .error nonIntegralMsg ∧
    (∃ e, movePlayer
      ⟨⟨[], [⟨"c1", [("p1", ParticipantStatus.participating)]⟩]⟩, ⟨10, 10, []⟩⟩ 0
      ⟨"p1", ⟨2, 2⟩, ⟨1, 0⟩, 0, none, none⟩ ⟨3, 3⟩ false = .error e) ∧
    movePlayer ⟨⟨[], []⟩, ⟨10, 10, []⟩⟩ 0 ⟨"p1", ⟨2, 2⟩, ⟨1, 0⟩, 0, none, none⟩ ⟨3, 3⟩ false =
      .ok ⟨"p1", ⟨2, 2⟩, ⟨1, 0⟩, 0, some ⟨⟨3, 3⟩, 0, .needsPath⟩, none⟩ := by
  refine ⟨?_, ?_, ?_⟩
  · exact (movePlayer_contract _ 0 _ _ false).1 (by decide)
  · exact ((movePlayer_contract
      ⟨⟨[], [⟨"c1", [("p1", ParticipantStatus.participating)]⟩]⟩, ⟨10, 10, []⟩⟩ 0
      ⟨"p1", ⟨2, 2⟩, ⟨1, 0⟩, 0, none, none⟩ ⟨3, 3⟩ false).2 (by decide) (by decide)).1.mpr
      ⟨by decide, rfl⟩
  · exact ((movePlayer_contract ⟨⟨[], []⟩, ⟨10, 10, []⟩⟩ 0
      ⟨"p1", ⟨2, 2⟩, ⟨1, 0⟩, 0, none, none⟩ ⟨3, 3⟩ false).2 (by decide) (by decide)).2
      (by decide)

/-- C8: when the mover already stands on the (integral) destination,
`movePlayer` returns without error and leaves the player record entirely
unchanged; in particular no pathfinding state is armed. -/
theorem movePlayer_noop_at_destination (game : Game) (now : ℚ) (player : Player)
    (destination : Point) (allow : Bool)
    (hint : qint (qfloor destination.x) = destination.x ∧
      qint (qfloor destination.y) = destination.y)
    (heq : pointsEqual player.position destination = true) :
    movePlayer game now player destination allow = .ok player := by
  rw [movePlayer, if_neg (by simpa using hint), if_pos (by simpa using heq)]

/-- Witness for C8: the mover at `(2,2)` asked to move to `(2,2)` is
returned unchanged. -/
theorem movePlayer_noop_at_destination_witness :
    movePlayer ⟨⟨[], []⟩, ⟨10, 10, []⟩⟩ 7 ⟨"p1", ⟨2, 2⟩, ⟨1, 0⟩, 0, none, none⟩ ⟨2, 2⟩ false =
      .ok ⟨"p1", ⟨2, 2⟩, ⟨1, 0⟩, 0, none, none⟩ :=
  movePlayer_noop_at_destination _ 7 _ _ false (by decide) (by decide)

/-! ## C2: cache expiry and eviction order -/

theorem cacheLookup_cons (e : PathCacheKey × CachedPathResult) (rest : CacheState)
    (k : PathCacheKey) :
    cacheLookup (e :: rest) k = if e.1 = k then some e.2 else cacheLookup rest k := by
  by_cases h : e.1 = k <;> simp [cacheLookup, List.find?_cons, h]

theorem cacheErase_cons (e : PathCacheKey × CachedPathResult) (rest : CacheState)
    (key : PathCacheKey) :
    cacheErase (e :: rest) key =
      if e.1 = key then cacheErase rest key else e :: cacheErase rest key := by
  by_cases h : e.1 = key <;> simp [cacheErase, List.filter_cons, h]

theorem cacheLookup_eq_none_of_not_mem (cache : CacheState) (k : PathCacheKey)
    (h : k ∉ cache.map Prod.fst) : cacheLookup cache k = none := by
  induction cache with
  | nil => rfl
  | cons e rest ih =>
    simp only [List.map_cons, List.mem_cons] at h
    push_neg at h
    rw [cacheLookup_cons, if_neg (fun hk => h.1 hk.symm)]
    exact ih h.2

theorem cacheLookup_erase_self (cache : CacheState) (key : PathCacheKey) :
    cacheLookup (cacheErase cache key) key = none := by
  induction cache with
  | nil => rfl
  | cons e rest ih =>
    rw [cacheErase_cons]
    by_cases h : e.1 = key
    · rw [if_pos h]
      exact ih
    · rw [if_neg h, cacheLookup_cons, if_neg h]
      exact ih

theorem cacheLookup_erase_ne (cache : CacheState) (key k : PathCacheKey) (h : k ≠ key) :
    cacheLookup (cacheErase cache key) k = cacheLookup cache k := by
  induction cache with
  | nil => rfl
  | cons e rest ih =>
    rw [cacheErase_cons]
    by_cases he : e.1 = key
    · rw [if_pos he, cacheLookup_cons, if_neg (show e.1 ≠ k by rw [he]; exact fun hk => h hk.symm),
        ih]
    · rw [if_neg he, cacheLookup_cons, cacheLookup_cons, ih]

theorem cacheLookup_append (l1 l2 : CacheState) (k : PathCacheKey) :
    cacheLookup (l1 ++ l2) k =
      match cacheLookup l1 k with
      | some r => some r
      | none => cacheLookup l2 k := by
  induction l1 with
  | nil => simp [cacheLookup]
  | cons e rest ih =>
    rw [List.cons_append, cacheLookup_cons, cacheLookup_cons]
    by_cases h : e.1 = k
    · simp [h]
    · simp only [if_neg h, ih]

theorem cacheMapReplace_lookup (cache : CacheState) (key : PathCacheKey)
    (entry : CachedPathResult) (hany : (cache.any fun e => decide (e.1 = key)) = true) :
    cacheLookup (cache.map fun e => if e.1 = key then (key, entry) else e) key = some entry := by
  induction cache with
  | nil => simp at hany
  | cons e rest ih =>
    rw [List.map_cons]
    by_cases h : e.1 = key
    · rw [if_pos h, cacheLookup_cons, if_pos rfl]
    · rw [if_neg h, cacheLookup_cons, if_neg h]
      apply ih
      simpa [h] using hany

theorem cacheMapReplace_lookup_ne (cache : CacheState) (key k : PathCacheKey)
    (entry : CachedPathResult) (h : k ≠ key) :
    cacheLookup (cache.map fun e => if e.1 = key then (key, entry) else e) k =
      cacheLookup cache k := by
  induction cache with
  | nil => rfl
  | cons e rest ih =>
    rw [List.map_cons]
    by_cases he : e.1 = key
    · rw [if_pos he, cacheLookup_cons, if_neg (show (key, entry).1 ≠ k from fun hk => h hk.symm),
        cacheLookup_cons, if_neg (show e.1 ≠ k by rw [he]; exact fun hk => h hk.symm), ih]
    · rw [if_neg he, cacheLookup_cons, cacheLookup_cons, ih]

theorem cacheInsert_lookup_self (cache : CacheState) (key : PathCacheKey)
    (entry : CachedPathResult) : cacheLookup (cacheInsert cache key entry) key = some entry := by
  rw [cacheInsert]
  by_cases hany : (cache.any fun e => decide (e.1 = key)) = true
  · rw [if_pos hany]
    exact cacheMapReplace_lookup cache key entry hany
  · rw [if_neg hany, cacheLookup_append, cacheLookup_eq_none_of_not_mem cache key ?_]
    · rw [cacheLookup_cons, if_pos rfl]
    · intro hmem
      apply hany
      obtain ⟨e, hin, he⟩ := List.mem_map.mp hmem
      simp only [List.any_eq_true, decide_eq_true_eq]
      exact ⟨e, hin, he⟩

theorem cacheInsert_lookup_ne (cache : CacheState) (key k : PathCacheKey)
    (entry : CachedPathResult) (h : k ≠ key) :
    cacheLookup (cacheInsert cache key entry) k = cacheLookup cache k := by
  rw [cacheInsert]
  by_cases hany : (cache.any fun e => decide (e.1 = key)) = true
  · rw [if_pos hany]
    exact cacheMapReplace_lookup_ne cache key k entry h
  · rw [if_neg hany, cacheLookup_append]
    cases hl : cacheLookup cache k with
    | some r => rfl
    | none =>
      simp only [hl]
      rw [cacheLookup_cons, if_neg (show (key, entry).1 ≠ k from fun hk => h hk.symm)]
      rfl

/-- C2: entries older than the 5000 ms time-to-live are reported as
misses and removed by `get` (other entries untouched); a `set` against a
cache at its 100-entry size cap evicts exactly the entry at the front of
the insertion order, stores the new entry, and leaves the lookup of every
other entry unchanged. -/
theorem pathfindingCache_ttl_and_eviction :
    (∀ (cache : CacheState) (key : PathCacheKey) (r : CachedPathResult) (now : ℚ),
      cacheLookup cache key = some r → cacheMaxAge < qsub now r.timestamp →
      cacheGet cache now key = (none, cacheErase cache key) ∧
      cacheLookup (cacheGet cache now key).2 key = none ∧
      (∀ k, k ≠ key → cacheLookup (cacheGet cache now key).2 k = cacheLookup cache k)) ∧
    (∀ (cache : CacheState) (k0 : PathCacheKey) (r0 : CachedPathResult)
      (key : PathCacheKey) (p : Option Path) (nd : Option Point) (now : ℚ),
      cache.length = cacheMaxSize → cache.head? = some (k0, r0) → k0 ≠ key →
      (cache.map Prod.fst).Nodup →
      cacheLookup (cacheSet cache now key p nd) k0 = none ∧
      cacheLookup (cacheSet cache now key p nd) key = some ⟨p, nd, now, 0⟩ ∧
      (∀ k, k ≠ k0 → k ≠ key →
        cacheLookup (cacheSet cache now key p nd) k = cacheLookup cache k)) := by
  constructor
  · intro cache key r now hl hold
    have hget : cacheGet cache now key = (none, cacheErase cache key) := by
      simp only [cacheGet, hl]
      rw [if_pos hold]
    refine ⟨hget, ?_, ?_⟩
    · rw [hget]
      exact cacheLookup_erase_self cache key
    · intro k hk
      rw [hget]
      exact cacheLookup_erase_ne cache key k hk
  · intro cache k0 r0 key p nd now hlen hhead hne hnodup
    cases cache with
    | nil => simp at hhead
    | cons e rest =>
      obtain rfl : e = (k0, r0) := by simpa using hhead
      have hdrop : (if cacheMaxSize ≤ ((k0, r0) :: rest).length then ((k0, r0) :: rest).drop 1
          else ((k0, r0) :: rest)) = rest := by
        rw [if_pos (by omega)]
        rfl
      have hk0rest : cacheLookup rest k0 = none := by
        apply cacheLookup_eq_none_of_not_mem
        simp only [List.map_cons, List.nodup_cons] at hnodup
        exact hnodup.1
      refine ⟨?_, ?_, ?_⟩
      · rw [cacheSet]
        simp only [hdrop]
        rw [cacheInsert_lookup_ne rest key k0 _ hne]
        exact hk0rest
      · rw [cacheSet]
        simp only [hdrop]
        exact cacheInsert_lookup_self rest key _
      · intro k hk0 hkey
        rw [cacheSet]
        simp only [hdrop]
        rw [cacheInsert_lookup_ne rest key k _ hkey, cacheLookup_cons,
          if_neg (fun h => hk0 h.symm)]

/-- Witness for C2: a 6000 ms old entry expires and is removed; a `set`
against a full 100-entry cache evicts the oldest entry, stores the new
one, and preserves the lookup of another entry. -/
theorem pathfindingCache_ttl_and_eviction_witness :
    cacheGet [(⟨0, 0, 0, 0, ⟨0, 0, 0⟩⟩, ⟨none, none, 0, 0⟩)] 6000 ⟨0, 0, 0, 0, ⟨0, 0, 0⟩⟩ =
      (none, cacheErase [(⟨0, 0, 0, 0, ⟨0, 0, 0⟩⟩, ⟨none, none, 0, 0⟩)] ⟨0, 0, 0, 0, ⟨0, 0, 0⟩⟩) ∧
    cacheLookup
      (cacheSet ((List.range 100).map fun n =>
          ((⟨qnat n, 0, 0, 0, ⟨0, 0, 0⟩⟩ : PathCacheKey), (⟨none, none, 0, 0⟩ : CachedPathResult)))
        0 ⟨qnat 100, 0, 0, 0, ⟨0, 0, 0⟩⟩ none none)
      ⟨qnat 0, 0, 0, 0, ⟨0, 0, 0⟩⟩ = none ∧
    cacheLookup
      (cacheSet ((List.range 100).map fun n =>
          ((⟨qnat n, 0, 0, 0, ⟨0, 0, 0⟩⟩ : PathCacheKey), (⟨none, none, 0, 0⟩ : CachedPathResult)))
        0 ⟨qnat 100, 0, 0, 0, ⟨0, 0, 0⟩⟩ none none)
      ⟨qnat 100, 0, 0, 0, ⟨0, 0, 0⟩⟩ = some ⟨none, none, 0, 0⟩ := by
  constructor
  · exact (pathfindingCache_ttl_and_eviction.1
      [(⟨0, 0, 0, 0, ⟨0, 0, 0⟩⟩, ⟨none, none, 0, 0⟩)] ⟨0, 0, 0, 0, ⟨0, 0, 0⟩⟩
      ⟨none, none, 0, 0⟩ 6000 (by decide) (by decide)).1
  · have h := pathfindingCache_ttl_and_eviction.2
      ((List.range 100).map fun n =>
        ((⟨qnat n, 0, 0, 0, ⟨0, 0, 0⟩⟩ : PathCacheKey), (⟨none, none, 0, 0⟩ : CachedPathResult)))
      ⟨qnat 0, 0, 0, 0, ⟨0, 0, 0⟩⟩ ⟨none, none, 0, 0⟩ ⟨qnat 100, 0, 0, 0, ⟨0, 0, 0⟩⟩
      none none 0 (by simp [cacheMaxSize]) (by decide) (by decide) ?_
    · exact ⟨h.1, h.2.1⟩
    · have : ((List.range 100).map fun n =>
          ((⟨qnat n, 0, 0, 0, ⟨0, 0, 0⟩⟩ : PathCacheKey),
            (⟨none, none, 0, 0⟩ : CachedPathResult))).map Prod.fst =
          (List.range 100).map fun n => (⟨qnat n, 0, 0, 0, ⟨0, 0, 0⟩⟩ : PathCacheKey) := by
        simp [List.map_map]
      rw [this]
      refine List.Nodup.map ?_ (List.nodup_range 100)
      intro a b hab
      have : qnat a = qnat b := congrArg PathCacheKey.startX hab
      rw [qnat_eq, qnat_eq] at this
      exact_mod_cast this

/-! ## C9: the pooled best-candidate table is fully cleared -/

theorem clearRow_getD (w x : ℕ) (row : List (Option PathCandidate)) (hx : x < w) :
    (clearRow w row).getD x none = none := by
  induction w generalizing x row with
  | zero => omega
  | succ w ih =>
    cases row with
    | nil => simp [clearRow]
    | cons c cs =>
      cases x with
      | zero => simp [clearRow]
      | succ x => simpa [clearRow] using ih x cs (by omega)

theorem clearGrid_getD (h w y x : ℕ) (g : List (List (Option PathCandidate)))
    (hy : y < h) (hx : x < w) : (((clearGrid h w g).getD y []).getD x none) = none := by
  induction h generalizing y g with
  | zero => omega
  | succ h ih =>
    cases g with
    | nil => simp [clearGrid]
    | cons r rs =>
      cases y with
      | zero => simpa [clearGrid] using clearRow_getD w x r hx
      | succ y => simpa [clearGrid] using ih y rs (by omega)

/-- C9: whatever the pool holds, every in-range cell `[y][x]`,
`0 ≤ y < height`, `0 ≤ x < width`, of the table returned by
`MinDistancesPool.get` reads `null`, so each search starts from a cleared
table. -/
theorem minDistancesPool_get_cleared (pools : PoolState) (width height y x : ℕ)
    (hy : y < height) (hx : x < width) :
    ((((minDistancesPoolGet pools width height).1.grid.getD y []).getD x none)) = none := by
  rw [minDistancesPoolGet]
  cases hfind : pools.findIdx? (poolFits width height) with
  | none => simpa using clearGrid_getD height width y x _ hy hx
  | some i => simpa using clearGrid_getD height width y x _ hy hx

/-- Witness for C9: a pool whose only table is full of stale candidates
and stale fractional-key entries still hands out a table whose in-range
cells read `null`. -/
theorem minDistancesPool_get_cleared_witness :
    ((((minDistancesPoolGet
        [⟨[[some (.root ⟨0, 0⟩ none 0 0 0), some (.root ⟨0, 0⟩ none 0 0 0)],
           [some (.root ⟨0, 0⟩ none 0 0 0), some (.root ⟨0, 0⟩ none 0 0 0)]],
          [(⟨qdiv 1 2, 0⟩, .root ⟨0, 0⟩ none 0 0 0)]⟩]
        2 2).1.grid.getD 1 []).getD 1 none)) = none :=
  minDistancesPool_get_cleared _ 2 2 1 1 (by decide) (by decide)

/-! ## C7: what `agentDoSomething` does when the player is already moving -/

/-- Counterexample to C7 as stated: with the `pathfinding` state of the player
set, `agentDoSomething` is not a no-op — it submits a `finishDoSomething`
input (here carrying the conversation candidate as invitee). -/
theorem agentDoSomething_moving_still_submits :
    agentDoSomething ⟨"p1", ⟨2, 2⟩, ⟨1, 0⟩, 0, some ⟨⟨5, 5⟩, 0, .needsPath⟩, none⟩
        ⟨"a1", none, none⟩ ⟨10, 10, []⟩ 0 [] ⟨0, 0, 0, 0, 0⟩ (some "p2") "op1" =
      [.submitInput "finishDoSomething" ⟨"op1", "a1", none, none, some "p2"⟩] ∧
    agentDoSomething ⟨"p1", ⟨2, 2⟩, ⟨1, 0⟩, 0, some ⟨⟨5, 5⟩, 0, .needsPath⟩, none⟩
        ⟨"a1", none, none⟩ ⟨10, 10, []⟩ 0 [] ⟨0, 0, 0, 0, 0⟩ (some "p2") "op1" ≠ [] := by
  constructor
  · rfl
  · decide

/-- C7 (amended): when the player is already moving, `agentDoSomething`
skips the wander/point-of-interest/activity block and submits exactly one
`finishDoSomething` input whose arguments carry no destination and no
activity, only the optional conversation invitee (absent during the
conversation cooldown windows). -/
theorem agentDoSomething_moving_submits_only_invitee (player : Player)
    (agent : SerializedAgent) (map : WorldMap) (now : ℚ) (pois : List PoiDoc)
    (rand : AgentRandom) (candidate : Option String) (operationId : String)
    (h : player.pathfinding.isSome = true) :
    agentDoSomething player agent map now pois rand candidate operationId =
      [.submitInput "finishDoSomething"
        ⟨operationId, agent.id, none, none, chosenInvitee agent now candidate⟩] := by
  rw [agentDoSomething]
  cases hp : player.pathfinding with
  | none => rw [hp] at h; simp at h
  | some p => rfl

/-- Witness for the amended C7 at a concrete moving player (inside the
conversation cooldown, so the invitee is suppressed). -/
theorem agentDoSomething_moving_submits_only_invitee_witness :
    agentDoSomething ⟨"p3", ⟨1, 1⟩, ⟨0, 1⟩, 0, some ⟨⟨3, 4⟩, 5, .needsPath⟩, none⟩
        ⟨"a2", some 0, none⟩ ⟨8, 8, []⟩ 100 [] ⟨0, 0, 0, 0, 0⟩ (some "p9") "op2" =
      [.submitInput "finishDoSomething"
        ⟨"op2", "a2", none, none,
          chosenInvitee ⟨"a2", some 0, none⟩ 100 (some "p9")⟩] :=
  agentDoSomething_moving_submits_only_invitee
    ⟨"p3", ⟨1, 1⟩, ⟨0, 1⟩, 0, some ⟨⟨3, 4⟩, 5, .needsPath⟩, none⟩
    ⟨"a2", some 0, none⟩ ⟨8, 8, []⟩ 100 [] ⟨0, 0, 0, 0, 0⟩ (some "p9") "op2" rfl

/-! ## C1: frontier exhaustion returns the closest explored candidate -/

/-- The search-loop invariant, propagated to an exhausted exit: the best
candidate is the start or strictly closer by the Manhattan heuristic, it
belongs to the explored trace, it is minimal over the trace, and the start
itself was explored. -/
theorem searchLoop_exhausted_closest (game : Game) (now : ℚ) (pid : String) (dest : Point)
    (s : PathCandidate) :
    ∀ (fuel : ℕ) (st : SearchState) (best : PathCandidate) (explored : List PathCandidate)
      (table : Table),
      (st.bestCandidate = s ∨ manhattanDistance st.bestCandidate.position dest <
        manhattanDistance s.position dest) →
      (st.bestCandidate ∈ st.explored ∨ st.bestCandidate = s) →
      (∀ c ∈ st.explored, manhattanDistance st.bestCandidate.position dest ≤
        manhattanDistance c.position dest) →
      (s ∈ st.explored ∨ st.current = some s) →
      searchLoop game now pid dest fuel st = .exhausted best explored table →
      ((best = s ∨ manhattanDistance best.position dest < manhattanDistance s.position dest) ∧
        best ∈ explored ∧
        (∀ c ∈ explored, manhattanDistance best.position dest ≤
          manhattanDistance c.position dest) ∧
        s ∈ explored) := by
  intro fuel
  induction fuel with
  | zero =>
    intro st best explored table h1 h2 h3 h4 hrun
    exact absurd hrun (by simp [searchLoop])
  | succ fuel ih =>
    intro st best explored table h1 h2 h3 h4 hrun
    obtain ⟨copt, bst, exp, hp, tbl⟩ := st
    dsimp only at h1 h2 h3 h4
    cases copt with
    | none =>
      simp only [searchLoop] at hrun
      obtain ⟨hb, he, ht⟩ := SearchOutcome.exhausted.inj hrun
      subst hb
      subst he
      have hs : s ∈ exp := by
        rcases h4 with h4 | h4
        · exact h4
        · exact absurd h4 (by simp)
      have hmem : bst ∈ exp := by
        rcases h2 with h2 | h2
        · exact h2
        · exact h2 ▸ hs
      exact ⟨h1, hmem, h3, hs⟩
    | some cur =>
      simp only [searchLoop] at hrun
      by_cases hpe : pointsEqual cur.position dest = true
      · rw [if_pos hpe] at hrun
        exact absurd hrun (by simp)
      · rw [if_neg hpe] at hrun
        refine ih _ best explored table ?_ ?_ ?_ ?_ hrun <;> dsimp only
        · by_cases hm : manhattanDistance cur.position dest <
              manhattanDistance bst.position dest
          · rw [if_pos hm]
            right
            rcases h1 with h1 | h1
            · rw [h1] at hm
              exact hm
            · exact lt_trans hm h1
          · rw [if_neg hm]
            exact h1
        · by_cases hm : manhattanDistance cur.position dest <
              manhattanDistance bst.position dest
          · rw [if_pos hm]
            exact Or.inl (List.mem_append_right _ (List.mem_singleton.mpr rfl))
          · rw [if_neg hm]
            rcases h2 with h2 | h2
            · exact Or.inl (List.mem_append_left _ h2)
            · exact Or.inr h2
        · intro c hcmem
          rcases List.mem_append.mp hcmem with hcm | hcm
          · by_cases hm : manhattanDistance cur.position dest <
                manhattanDistance bst.position dest
            · rw [if_pos hm]
              exact le_trans (le_of_lt hm) (h3 c hcm)
            · rw [if_neg hm]
              exact h3 c hcm
          · rw [List.mem_singleton.mp hcm]
            by_cases hm : manhattanDistance cur.position dest <
                manhattanDistance bst.position dest
            · rw [if_pos hm]
            · rw [if_neg hm]
              exact le_of_not_lt hm
        · left
          rcases h4 with h4 | h4
          · exact List.mem_append_left _ h4
          · have hcs : cur = s := Option.some.inj h4
            exact hcs ▸ List.mem_append_right _ (List.mem_singleton.mpr rfl)

/-- C1: when `findRoute` misses its cache and the search exhausts the
frontier, then: a best explored candidate of path length `0` makes the
call return `null`; otherwise the call returns a non-null result whose
`newDestination` is the position of the best explored candidate, which is
the closest explored candidate by Manhattan heuristic and lies strictly
closer (by Manhattan distance) to the requested destination than the
starting position of the mover. -/
theorem findRoute_exhausted_partial (game : Game) (now : ℚ) (player : Player)
    (destination : Point) (cache : CacheState) (pool : PoolState) (fuel : ℕ)
    (best : PathCandidate) (explored : List PathCandidate) (table : Table)
    (hmiss : (cacheGet cache now (routeCacheKey game now player destination)).1 = none)
    (hloop : searchLoop game now player.id destination fuel
      ⟨some (startCandidate now player destination), startCandidate now player destination,
        [], [], (minDistancesPoolGet pool game.worldMap.width game.worldMap.height).1⟩ =
      .exhausted best explored table) :
    (best.length = 0 → (findRoute game now player destination cache pool fuel).1 = some none) ∧
    (¬best.length = 0 →
      (findRoute game now player destination cache pool fuel).1 =
        some (some (routeFromCandidate best (some best.position))) ∧
      (routeFromCandidate best (some best.position)).newDestination = some best.position ∧
      manhattanDistance best.position destination <
        manhattanDistance player.position destination ∧
      best ∈ explored ∧
      (∀ c ∈ explored, manhattanDistance best.position destination ≤
        manhattanDistance c.position destination)) := by
  have hkey := searchLoop_exhausted_closest game now player.id destination
    (startCandidate now player destination) fuel
    ⟨some (startCandidate now player destination), startCandidate now player destination,
      [], [], (minDistancesPoolGet pool game.worldMap.width game.worldMap.height).1⟩
    best explored table (Or.inl rfl) (Or.inr rfl) (by intro c hcm; exact absurd hcm (by simp))
    (Or.inr rfl) hloop
  constructor
  · intro h0
    simp only [findRoute, hmiss, hloop]
    rw [if_pos h0]
  · intro h0
    have hlt : manhattanDistance best.position destination <
        manhattanDistance player.position destination := by
      rcases hkey.1 with h | h
      · exact absurd (congrArg PathCandidate.length h) (by simpa using h0)
      · exact h
    refine ⟨?_, rfl, hlt, hkey.2.1, hkey.2.2.1⟩
    simp only [findRoute, hmiss, hloop]
    rw [if_neg h0]

/-- Witness for C1: on a 1-by-1 map every direction is out of bounds, the
search exhausts with zero progress and `findRoute` returns `null`; on a
3-by-1 corridor whose last tile is an obstacle, the search exhausts after
reaching the middle tile and `findRoute` revises the destination to it,
strictly closer to the blocked goal than the start. -/
theorem findRoute_exhausted_partial_witness :
    (findRoute ⟨⟨[⟨"p1", ⟨0, 0⟩, ⟨1, 0⟩, 0, none, none⟩], []⟩, ⟨1, 1, []⟩⟩ 0
        ⟨"p1", ⟨0, 0⟩, ⟨1, 0⟩, 0, none, none⟩ ⟨5, 5⟩ [] [] 10).1 = some none ∧
    (findRoute ⟨⟨[⟨"p1", ⟨0, 0⟩, ⟨1, 0⟩, 0, none, none⟩], []⟩, ⟨3, 1, [[[-1], [-1], [7]]]⟩⟩ 0
        ⟨"p1", ⟨0, 0⟩, ⟨1, 0⟩, 0, none, none⟩ ⟨2, 0⟩ [] [] 10).1 =
      some (some (routeFromCandidate
        (.step ⟨1, 0⟩ (some ⟨1, 0⟩) (Rat.divInt 4000 3) 1 2
          (.root ⟨0, 0⟩ (some ⟨1, 0⟩) 0 0 2)) (some ⟨1, 0⟩))) ∧
    manhattanDistance (⟨1, 0⟩ : Point) ⟨2, 0⟩ < manhattanDistance (⟨0, 0⟩ : Point) ⟨2, 0⟩ := by
  have hA := findRoute_exhausted_partial
    ⟨⟨[⟨"p1", ⟨0, 0⟩, ⟨1, 0⟩, 0, none, none⟩], []⟩, ⟨1, 1, []⟩⟩ 0
    ⟨"p1", ⟨0, 0⟩, ⟨1, 0⟩, 0, none, none⟩ ⟨5, 5⟩ [] [] 10
    (.root ⟨0, 0⟩ (some ⟨1, 0⟩) 0 0 10)
    [.root ⟨0, 0⟩ (some ⟨1, 0⟩) 0 0 10] ⟨[[none]], []⟩ (by decide) (by decide)
  have hB := findRoute_exhausted_partial
    ⟨⟨[⟨"p1", ⟨0, 0⟩, ⟨1, 0⟩, 0, none, none⟩], []⟩, ⟨3, 1, [[[-1], [-1], [7]]]⟩⟩ 0
    ⟨"p1", ⟨0, 0⟩, ⟨1, 0⟩, 0, none, none⟩ ⟨2, 0⟩ [] [] 10
    (.step ⟨1, 0⟩ (some ⟨1, 0⟩) (Rat.divInt 4000 3) 1 2 (.root ⟨0, 0⟩ (some ⟨1, 0⟩) 0 0 2))
    [.root ⟨0, 0⟩ (some ⟨1, 0⟩) 0 0 2,
      .step ⟨1, 0⟩ (some ⟨1, 0⟩) (Rat.divInt 4000 3) 1 2 (.root ⟨0, 0⟩ (some ⟨1, 0⟩) 0 0 2),
      .step ⟨0, 0⟩ (some ⟨-1, 0⟩) (Rat.divInt 8000 3) 2 4
        (.step ⟨1, 0⟩ (some ⟨1, 0⟩) (Rat.divInt 4000 3) 1 2
          (.root ⟨0, 0⟩ (some ⟨1, 0⟩) 0 0 2))]
    ⟨[[some (.step ⟨0, 0⟩ (some ⟨-1, 0⟩) (Rat.divInt 8000 3) 2 4
        (.step ⟨1, 0⟩ (some ⟨1, 0⟩) (Rat.divInt 4000 3) 1 2
          (.root ⟨0, 0⟩ (some ⟨1, 0⟩) 0 0 2))),
      some (.step ⟨1, 0⟩ (some ⟨1, 0⟩) (Rat.divInt 4000 3) 1 2
        (.root ⟨0, 0⟩ (some ⟨1, 0⟩) 0 0 2)), none]], []⟩ (by decide) (by decide)
  obtain ⟨hB1, _, hB3, _⟩ := hB.2 (by decide)
  exact ⟨hA.1 (by decide), hB1, hB3⟩

/-! ## C6: the blocking predicate and neighbor filtering -/

theorem listGetD_set_ne (l : List α) (i j : ℕ) (a d : α) (h : ¬ i = j) :
    (l.set i a).getD j d = l.getD j d := by
  induction l generalizing i j with
  | nil => simp
  | cons x xs ih =>
    cases i with
    | zero =>
      cases j with
      | zero => exact absurd rfl h
      | succ j => simp [List.set]
    | succ i =>
      cases j with
      | zero => simp [List.set]
      | succ j => simpa [List.set] using ih i j (by omega)

theorem listGetD_set_self (l : List α) (i : ℕ) (a d : α) (h : i < l.length) :
    (l.set i a).getD i d = a := by
  induction l generalizing i with
  | nil => simp at h
  | cons x xs ih =>
    cases i with
    | zero => simp [List.set]
    | succ i => simpa [List.set] using ih i (by simpa using h)

theorem listSet_of_length_le (l : List α) (i : ℕ) (a : α) (h : l.length ≤ i) :
    l.set i a = l := by
  induction l generalizing i with
  | nil => simp
  | cons x xs ih =>
    cases i with
    | zero => simp at h
    | succ i => simpa [List.set] using ih i (by simpa using h)

theorem isGridPoint_eq (p q : Point) (hp : isGridPoint p = true) (hq : isGridPoint q = true)
    (hpx : 0 ≤ p.x) (hpy : 0 ≤ p.y) (hqx : 0 ≤ q.x) (hqy : 0 ≤ q.y)
    (hx : (qfloor p.x).toNat = (qfloor q.x).toNat)
    (hy : (qfloor p.y).toNat = (qfloor q.y).toNat) : p = q := by
  rw [isGridPoint, Bool.and_eq_true, decide_eq_true_eq, decide_eq_true_eq] at hp hq
  have hfx : qfloor p.x = qfloor q.x := by
    have h1 : (0:ℤ) ≤ qfloor p.x := by
      rw [qfloor_eq]
      exact Int.floor_nonneg.mpr hpx
    have h2 : (0:ℤ) ≤ qfloor q.x := by
      rw [qfloor_eq]
      exact Int.floor_nonneg.mpr hqx
    omega
  have hfy : qfloor p.y = qfloor q.y := by
    have h1 : (0:ℤ) ≤ qfloor p.y := by
      rw [qfloor_eq]
      exact Int.floor_nonneg.mpr hpy
    have h2 : (0:ℤ) ≤ qfloor q.y := by
      rw [qfloor_eq]
      exact Int.floor_nonneg.mpr hqy
    omega
  have hxe : p.x = q.x := by rw [hp.1, hq.1, hfx]
  have hye : p.y = q.y := by rw [hp.2, hq.2, hfy]
  cases p
  cases q
  simp only [Point.mk.injEq]
  exact ⟨hxe, hye⟩

theorem extrasFind_replace_ne (l : List (Point × PathCandidate)) (p q : Point)
    (c : PathCandidate) (h : ¬ q = p) :
    ((l.map fun e => if e.1 = p then (p, c) else e).find? fun e => decide (e.1 = q)) =
      l.find? fun e => decide (e.1 = q) := by
  induction l with
  | nil => rfl
  | cons e rest ih =>
    rw [List.map_cons]
    by_cases he : e.1 = p
    · rw [if_pos he, List.find?_cons, List.find?_cons]
      have h1 : decide ((p, c).1 = q) = false :=
        decide_eq_false (fun hh => h hh.symm)
      have h2 : decide (e.1 = q) = false := by
        rw [he]
        exact decide_eq_false (fun hh => h hh.symm)
      rw [h1, h2, ih]
    · rw [if_neg he, List.find?_cons, List.find?_cons]
      cases hd : decide (e.1 = q) with
      | true => rfl
      | false => exact ih

theorem extrasFind_append_ne (l : List (Point × PathCandidate)) (p q : Point)
    (c : PathCandidate) (h : ¬ q = p) :
    ((l ++ [(p, c)]).find? fun e => decide (e.1 = q)) = l.find? fun e => decide (e.1 = q) := by
  induction l with
  | nil =>
    simp only [List.nil_append, List.find?_cons,
      decide_eq_false (fun hh : (p, c).1 = q => h hh.symm)]
  | cons e rest ih =>
    rw [List.cons_append, List.find?_cons, List.find?_cons]
    cases hd : decide (e.1 = q) with
    | true => rfl
    | false => exact ih

/-- Writing the table at one position leaves the read at any other
position unchanged, provided both positions have nonnegative coordinates
(the only positions the search ever reads or writes, since blocked
positions are skipped first). -/
theorem tableGet_set_ne (T : Table) (p q : Point) (c : PathCandidate)
    (hne : ¬ q = p) (hpx : 0 ≤ p.x) (hpy : 0 ≤ p.y) (hqx : 0 ≤ q.x) (hqy : 0 ≤ q.y) :
    tableGet (tableSet T p c) q = tableGet T q := by
  simp only [tableSet, tableGet]
  by_cases hp : isGridPoint p = true <;> by_cases hq : isGridPoint q = true
  · rw [if_pos hp, if_pos hq, if_pos hq]
    by_cases hyy : (qfloor p.y).toNat = (qfloor q.y).toNat
    · by_cases hxx : (qfloor p.x).toNat = (qfloor q.x).toNat
      · exact absurd (isGridPoint_eq p q hp hq hpx hpy hqx hqy hxx hyy).symm hne
      · rw [← hyy]
        by_cases hl : (qfloor p.y).toNat < T.grid.length
        · rw [listGetD_set_self _ _ _ _ hl, listGetD_set_ne _ _ _ _ _ hxx]
        · rw [listSet_of_length_le _ _ _ (by omega)]
    · rw [listGetD_set_ne _ _ _ _ _ hyy]
  · rw [if_pos hp, if_neg hq, if_neg hq]
  · rw [if_neg hp, if_pos hq, if_pos hq]
  · rw [if_neg hp, if_neg hq, if_neg hq]
    by_cases hany : (T.extras.any fun e => decide (e.1 = p)) = true
    · rw [if_pos hany, extrasFind_replace_ne _ _ _ _ hne]
    · rw [if_neg hany, extrasFind_append_ne _ _ _ _ hne]

/-- Unblocked positions lie in bounds, in particular their coordinates are
nonnegative. -/
theorem blocked_none_nonneg (game : Game) (now : ℚ) (pos : Point) (pid : String)
    (h : blocked game now pos pid = none) : 0 ≤ pos.x ∧ 0 ≤ pos.y := by
  rw [blocked, blockedWithPositions] at h
  by_cases h1 : pos.x < 0 ∨ pos.y < 0 ∨ qnat game.worldMap.width ≤ pos.x ∨
      qnat game.worldMap.height ≤ pos.y
  · rw [if_pos h1] at h
    exact absurd h (by simp)
  · push_neg at h1
    exact ⟨h1.1, h1.2.1⟩

theorem rat_sq_lt_iff_sqrt_lt (a b c : ℚ) (hc : 0 < c) :
    (qadd (qmul a a) (qmul b b) < qmul c c) ↔
      Real.sqrt ((a : ℝ) ^ 2 + (b : ℝ) ^ 2) < (c : ℝ) := by
  rw [qadd_eq, qmul_eq, qmul_eq, qmul_eq,
    Real.sqrt_lt' (by exact_mod_cast hc),
    show ((a:ℝ) ^ 2 + (b:ℝ) ^ 2) = (((a * a + b * b : ℚ) : ℝ)) by push_cast; ring,
    show ((c:ℝ) ^ 2) = (((c * c : ℚ) : ℝ)) by push_cast; ring]
  exact_mod_cast Iff.rfl

theorem lt_floor_add_one_ne (a : ℚ) : ¬ qadd (qint (qfloor a)) 1 = a := by
  rw [qadd_eq, qint_eq, qfloor_eq]
  intro h
  have := Int.lt_floor_add_one a
  rw [h] at this
  exact lt_irrefl a this

/-- A point inequality witnessed by the first coordinates. -/
theorem point_ne_of_x {a b c d : ℚ} (h : ¬ a = c) : ¬ (⟨a, b⟩ : Point) = ⟨c, d⟩ :=
  fun hh => h (congrArg Point.x hh)

/-- A point inequality witnessed by the second coordinates. -/
theorem point_ne_of_y {a b c d : ℚ} (h : ¬ b = d) : ¬ (⟨a, b⟩ : Point) = ⟨c, d⟩ :=
  fun hh => h (congrArg Point.y hh)

theorem qadd_one_ne_self (a : ℚ) : ¬ qadd a 1 = a := by
  rw [qadd_eq]
  intro h
  linarith

theorem qadd_one_ne_qsub_one (a : ℚ) : ¬ qadd a 1 = qsub a 1 := by
  rw [qadd_eq, qsub_eq]
  intro h
  linarith

theorem qsub_one_ne_self (a : ℚ) : ¬ qsub a 1 = a := by
  rw [qsub_eq]
  intro h
  linarith

/-- The positions generated by one `explore` call are pairwise distinct,
so the in-loop table writes at one neighbor never affect the dominance
check of a sibling neighbor. -/
theorem genNeighbors_pairwise (p : Point) :
    (genNeighbors p).Pairwise fun a b => ¬ a.1 = b.1 := by
  have hself : ∀ a : ℚ, ¬ qint (qfloor a) = qadd (qint (qfloor a)) 1 := by
    intro a h
    rw [qadd_eq] at h
    linarith
  rw [genNeighbors]
  by_cases hx : p.x = qint (qfloor p.x) <;> by_cases hy : p.y = qint (qfloor p.y)
  · rw [if_pos hx, if_pos hy, if_pos ⟨hx, hy⟩]
    simp only [List.nil_append]
    refine List.Pairwise.cons ?_ (List.Pairwise.cons ?_
      (List.Pairwise.cons ?_ (List.Pairwise.cons (by simp) List.Pairwise.nil)))
    · intro b hb
      simp only [List.mem_cons, List.mem_singleton, List.not_mem_nil, or_false] at hb
      rcases hb with rfl | rfl | rfl
      · exact point_ne_of_x (qadd_one_ne_qsub_one p.x)
      · exact point_ne_of_x (qadd_one_ne_self p.x)
      · exact point_ne_of_x (qadd_one_ne_self p.x)
    · intro b hb
      simp only [List.mem_cons, List.mem_singleton, List.not_mem_nil, or_false] at hb
      rcases hb with rfl | rfl
      · exact point_ne_of_x (qsub_one_ne_self p.x)
      · exact point_ne_of_x (qsub_one_ne_self p.x)
    · intro b hb
      simp only [List.mem_singleton] at hb
      subst hb
      exact point_ne_of_y (qadd_one_ne_qsub_one p.y)
  · rw [if_pos hx, if_neg hy, if_neg (fun hh => hy hh.2)]
    simp only [List.nil_append, List.append_nil]
    refine List.Pairwise.cons ?_ (List.Pairwise.cons (by simp) List.Pairwise.nil)
    intro b hb
    simp only [List.mem_singleton] at hb
    subst hb
    exact point_ne_of_y (hself p.y)
  · rw [if_neg hx, if_pos hy, if_neg (fun hh => hx hh.1)]
    simp only [List.append_nil]
    refine List.Pairwise.cons ?_ (List.Pairwise.cons (by simp) List.Pairwise.nil)
    intro b hb
    simp only [List.mem_singleton] at hb
    subst hb
    exact point_ne_of_x (hself p.x)
  · rw [if_neg hx, if_neg hy, if_neg (fun hh => hx hh.1)]
    simp only [List.append_nil, List.cons_append, List.nil_append]
    have hxs : ∀ b : ℚ, ¬ qint (qfloor p.x) = p.x := fun b hh => hx hh.symm
    have hxs1 : ∀ b : ℚ, ¬ qadd (qint (qfloor p.x)) 1 = p.x :=
      fun b => lt_floor_add_one_ne p.x
    refine List.Pairwise.cons ?_ (List.Pairwise.cons ?_
      (List.Pairwise.cons ?_ (List.Pairwise.cons (by simp) List.Pairwise.nil)))
    · intro b hb
      simp only [List.mem_cons, List.mem_singleton, List.not_mem_nil, or_false] at hb
      rcases hb with rfl | rfl | rfl
      · exact point_ne_of_x (hself p.x)
      · exact point_ne_of_x (hxs 0)
      · exact point_ne_of_x (hxs 0)
    · intro b hb
      simp only [List.mem_cons, List.mem_singleton, List.not_mem_nil, or_false] at hb
      rcases hb with rfl | rfl
      · exact point_ne_of_x (hxs1 0)
      · exact point_ne_of_x (hxs1 0)
    · intro b hb
      simp only [List.mem_singleton] at hb
      subst hb
      exact point_ne_of_y (hself p.y)

/-- The neighbor loop of `explore`, characterized against the table it
started from: a neighbor contributes a candidate exactly when it is not
blocked and not dominated by the stored per-cell best.  The sibling table
writes do not interfere because generated positions are pairwise
distinct. -/
theorem exploreFold_filterMap (game : Game) (now : ℚ) (pid : String) (dest : Point)
    (cur : PathCandidate) :
    ∀ (L : List (Point × Vector)) (acc : List PathCandidate) (T T0 : Table),
      L.Pairwise (fun a b => ¬ a.1 = b.1) →
      (∀ m ∈ L, blocked game now m.1 pid = none → tableGet T m.1 = tableGet T0 m.1) →
      (L.foldl (exploreStep game now pid dest cur) (acc, T)).1 =
        acc ++ L.filterMap fun n =>
          if blocked game now n.1 pid = none then
            match tableGet T0 n.1 with
            | some existingMin =>
              if existingMin.cost ≤ (neighborCandidate dest cur n).cost then none
              else some (neighborCandidate dest cur n)
            | none => some (neighborCandidate dest cur n)
          else none := by
  intro L
  induction L with
  | nil =>
    intro acc T T0 hp hagree
    simp
  | cons n L ih =>
    intro acc T T0 hp hagree
    have hpairs := (List.pairwise_cons.mp hp).1
    have hptail := (List.pairwise_cons.mp hp).2
    rw [List.foldl_cons, List.filterMap_cons]
    by_cases hb : blocked game now n.1 pid = none
    · have hTn : tableGet T n.1 = tableGet T0 n.1 :=
        hagree n (List.mem_cons_self _ _) hb
      cases h0 : tableGet T0 n.1 with
      | none =>
        have hstep : exploreStep game now pid dest cur (acc, T) n =
            (acc ++ [neighborCandidate dest cur n],
              tableSet T n.1 (neighborCandidate dest cur n)) := by
          rw [exploreStep, if_neg (not_not_intro hb)]
          simp only [hTn, h0]
        have hagree2 : ∀ m ∈ L, blocked game now m.1 pid = none →
            tableGet (tableSet T n.1 (neighborCandidate dest cur n)) m.1 = tableGet T0 m.1 := by
          intro m hm hbm
          have hmn : ¬ m.1 = n.1 := fun hh => (hpairs m hm) hh.symm
          obtain ⟨hnx, hny⟩ := blocked_none_nonneg game now n.1 pid hb
          obtain ⟨hmx, hmy⟩ := blocked_none_nonneg game now m.1 pid hbm
          rw [tableGet_set_ne T n.1 m.1 _ hmn hnx hny hmx hmy]
          exact hagree m (List.mem_cons_of_mem _ hm) hbm
        rw [hstep, ih _ _ T0 hptail hagree2]
        simp [hb, h0]
      | some existingMin =>
        by_cases hdom : existingMin.cost ≤ (neighborCandidate dest cur n).cost
        · have hstep : exploreStep game now pid dest cur (acc, T) n = (acc, T) := by
            rw [exploreStep, if_neg (not_not_intro hb)]
            simp only [hTn, h0]
            rw [if_pos hdom]
          rw [hstep, ih _ _ T0 hptail
            (fun m hm hbm => hagree m (List.mem_cons_of_mem _ hm) hbm)]
          simp [hb, h0, hdom]
        · have hstep : exploreStep game now pid dest cur (acc, T) n =
              (acc ++ [neighborCandidate dest cur n],
                tableSet T n.1 (neighborCandidate dest cur n)) := by
            rw [exploreStep, if_neg (not_not_intro hb)]
            simp only [hTn, h0]
            rw [if_neg hdom]
          have hagree2 : ∀ m ∈ L, blocked game now m.1 pid = none →
              tableGet (tableSet T n.1 (neighborCandidate dest cur n)) m.1 =
                tableGet T0 m.1 := by
            intro m hm hbm
            have hmn : ¬ m.1 = n.1 := fun hh => (hpairs m hm) hh.symm
            obtain ⟨hnx, hny⟩ := blocked_none_nonneg game now n.1 pid hb
            obtain ⟨hmx, hmy⟩ := blocked_none_nonneg game now m.1 pid hbm
            rw [tableGet_set_ne T n.1 m.1 _ hmn hnx hny hmx hmy]
            exact hagree m (List.mem_cons_of_mem _ hm) hbm
          rw [hstep, ih _ _ T0 hptail hagree2]
          simp [hb, h0, hdom]
    · have hstep : exploreStep game now pid dest cur (acc, T) n = (acc, T) := by
        rw [exploreStep, if_pos hb]
      rw [hstep, ih _ _ T0 hptail
        (fun m hm hbm => hagree m (List.mem_cons_of_mem _ hm) hbm)]
      simp [hb]

/-- `explore` as a filter of the generated neighbors. -/
theorem explore_filterMap (game : Game) (now : ℚ) (pid : String) (dest : Point)
    (cur : PathCandidate) (T : Table) :
    (explore game now pid dest cur T).1 =
      (genNeighbors cur.position).filterMap fun n =>
        if blocked game now n.1 pid = none then
          match tableGet T n.1 with
          | some existingMin =>
            if existingMin.cost ≤ (neighborCandidate dest cur n).cost then none
            else some (neighborCandidate dest cur n)
          | none => some (neighborCandidate dest cur n)
        else none := by
  rw [explore, exploreFold_filterMap game now pid dest cur (genNeighbors cur.position) [] T T
    (genNeighbors_pairwise cur.position) (fun m hm hb => rfl), List.nil_append]

/-- C6: `blockedWithPositions` reports blocked exactly when the position
is out of the map bounds, or its tile is marked in some object-tile
layer, or it lies within the collision threshold (Euclidean distance) of
the position of another mover — and `null` otherwise; and the
neighbor generation (`explore`) discards exactly the blocked neighbors:
no surviving candidate is blocked, and the surviving candidates are
precisely the unblocked neighbors that pass the per-cell dominance
check. -/
theorem blockedWithPositions_blocking (game : Game) (now : ℚ) (pid : String) (dest : Point) :
    (∀ (pos : Point) (others : List Point) (map : WorldMap),
      ((blockedWithPositions pos others map).isSome ↔
        (pos.x < 0 ∨ pos.y < 0 ∨ (map.width : ℚ) ≤ pos.x ∨ (map.height : ℚ) ≤ pos.y) ∨
        (∃ layer ∈ map.objectTiles,
          ¬ (layer.getD (⌊pos.x⌋).toNat []).getD (⌊pos.y⌋).toNat (-1) = -1) ∨
        (∃ other ∈ others,
          Real.sqrt (((other.x - pos.x : ℚ) : ℝ) ^ 2 + ((other.y - pos.y : ℚ) : ℝ) ^ 2) <
            ((COLLISION_THRESHOLD : ℚ) : ℝ)))) ∧
    (∀ (cur : PathCandidate) (T : Table) (c : PathCandidate),
      c ∈ (explore game now pid dest cur T).1 → blocked game now c.position pid = none) ∧
    (∀ (cur : PathCandidate) (T : Table),
      (explore game now pid dest cur T).1 =
        (genNeighbors cur.position).filterMap fun n =>
          if blocked game now n.1 pid = none then
            match tableGet T n.1 with
            | some existingMin =>
              if existingMin.cost ≤ (neighborCandidate dest cur n).cost then none
              else some (neighborCandidate dest cur n)
            | none => some (neighborCandidate dest cur n)
          else none) := by
  refine ⟨?_, ?_, fun cur T => explore_filterMap game now pid dest cur T⟩
  · intro pos others map
    have hA : (pos.x < 0 ∨ pos.y < 0 ∨ qnat map.width ≤ pos.x ∨ qnat map.height ≤ pos.y) ↔
        (pos.x < 0 ∨ pos.y < 0 ∨ (map.width : ℚ) ≤ pos.x ∨ (map.height : ℚ) ≤ pos.y) := by
      rw [qnat_eq, qnat_eq]
    have hB : ((map.objectTiles.any fun layer => tileOccupied layer pos) = true) ↔
        (∃ layer ∈ map.objectTiles,
          ¬ (layer.getD (⌊pos.x⌋).toNat []).getD (⌊pos.y⌋).toNat (-1) = -1) := by
      simp only [List.any_eq_true, tileOccupied, decide_eq_true_eq, qfloor_eq]
    have hCpos : (0 : ℚ) < COLLISION_THRESHOLD := by decide
    have hC : ((others.any fun other =>
          decide (distanceSq other pos < qmul COLLISION_THRESHOLD COLLISION_THRESHOLD)) = true) ↔
        (∃ other ∈ others,
          Real.sqrt (((other.x - pos.x : ℚ) : ℝ) ^ 2 + ((other.y - pos.y : ℚ) : ℝ) ^ 2) <
            ((COLLISION_THRESHOLD : ℚ) : ℝ)) := by
      simp only [List.any_eq_true, decide_eq_true_eq]
      refine exists_congr fun other => and_congr_right fun _ => ?_
      rw [distanceSq, rat_sq_lt_iff_sqrt_lt _ _ _ hCpos, qsub_eq, qsub_eq]
    rw [blockedWithPositions]
    split_ifs with h1 h2 h3
    · exact iff_of_true rfl (Or.inl (hA.mp h1))
    · exact iff_of_true rfl (Or.inr (Or.inl (hB.mp h2)))
    · exact iff_of_true rfl (Or.inr (Or.inr (hC.mp h3)))
    · refine iff_of_false (by simp) ?_
      rintro (h | h | h)
      · exact h1 (hA.mpr h)
      · exact h2 (hB.mpr h)
      · exact h3 (hC.mpr h)
  · intro cur T c hc
    rw [explore_filterMap] at hc
    obtain ⟨n, hn, hf⟩ := List.mem_filterMap.mp hc
    by_cases hb : blocked game now n.1 pid = none
    · rw [if_pos hb] at hf
      have hcn : c = neighborCandidate dest cur n := by
        cases h0 : tableGet T n.1 with
        | none =>
          simp only [h0] at hf
          exact (Option.some.inj hf).symm
        | some existingMin =>
          simp only [h0] at hf
          by_cases hdom : existingMin.cost ≤ (neighborCandidate dest cur n).cost
          · rw [if_pos hdom] at hf
            exact absurd hf (by simp)
          · rw [if_neg hdom] at hf
            exact (Option.some.inj hf).symm
      have hpos : c.position = n.1 := by rw [hcn]; rfl
      rw [hpos]
      exact hb
    · rw [if_neg hb] at hf
      exact absurd hf (by simp)

/-- Witness for C6: the characterization instantiated at a concrete
out-of-bounds position, and a concrete surviving `explore` candidate that
the blocking predicate indeed clears. -/
theorem blockedWithPositions_blocking_witness :
    (((blockedWithPositions ⟨5, 5⟩ [] ⟨3, 3, []⟩).isSome ↔
      ((5:ℚ) < 0 ∨ (5:ℚ) < 0 ∨ ((3:ℕ) : ℚ) ≤ 5 ∨ ((3:ℕ) : ℚ) ≤ 5) ∨
      (∃ layer ∈ ([] : List (List (List ℤ))),
        ¬ (layer.getD (⌊(5:ℚ)⌋).toNat []).getD (⌊(5:ℚ)⌋).toNat (-1) = -1) ∨
      (∃ other ∈ ([] : List Point),
        Real.sqrt (((other.x - (5:ℚ) : ℚ) : ℝ) ^ 2 + ((other.y - (5:ℚ) : ℚ) : ℝ) ^ 2) <
          ((COLLISION_THRESHOLD : ℚ) : ℝ)))) ∧
    blocked ⟨⟨[⟨"p1", ⟨0, 0⟩, ⟨1, 0⟩, 0, none, none⟩], []⟩, ⟨3, 1, [[[-1], [-1], [7]]]⟩⟩ 0
      (PathCandidate.step ⟨1, 0⟩ (some ⟨1, 0⟩) (Rat.divInt 4000 3) 1 2
        (.root ⟨0, 0⟩ (some ⟨1, 0⟩) 0 0 2)).position "p1" = none := by
  constructor
  · exact (blockedWithPositions_blocking
      ⟨⟨[], []⟩, ⟨1, 1, []⟩⟩ 0 "p1" ⟨0, 0⟩).1 ⟨5, 5⟩ [] ⟨3, 3, []⟩
  · exact (blockedWithPositions_blocking
      ⟨⟨[⟨"p1", ⟨0, 0⟩, ⟨1, 0⟩, 0, none, none⟩], []⟩, ⟨3, 1, [[[-1], [-1], [7]]]⟩⟩ 0 "p1"
      ⟨2, 0⟩).2.1
      (.root ⟨0, 0⟩ (some ⟨1, 0⟩) 0 0 2) ⟨[[none, none, none]], []⟩
      (.step ⟨1, 0⟩ (some ⟨1, 0⟩) (Rat.divInt 4000 3) 1 2 (.root ⟨0, 0⟩ (some ⟨1, 0⟩) 0 0 2))
      (by decide)

/-! ## C3: consecutive calls in one fingerprint bucket return equal results -/

theorem cacheLookup_mem (cache : CacheState) (k : PathCacheKey) (r : CachedPathResult)
    (h : cacheLookup cache k = some r) : (k, r) ∈ cache := by
  induction cache with
  | nil => simp [cacheLookup] at h
  | cons e rest ih =>
    rw [cacheLookup_cons] at h
    by_cases he : e.1 = k
    · rw [if_pos he] at h
      rw [← he, ← Option.some.inj h]
      exact List.mem_cons_self _ _
    · rw [if_neg he] at h
      exact List.mem_cons_of_mem _ (ih h)

theorem cacheSet_lookup_self (c : CacheState) (now : ℚ) (k : PathCacheKey)
    (p : Option Path) (nd : Option Point) :
    cacheLookup (cacheSet c now k p nd) k = some ⟨p, nd, now, 0⟩ := by
  rw [cacheSet]
  exact cacheInsert_lookup_self _ _ _

/-- Two clock readings in the same 1-second bucket differ by less than a
second, far below the cache time-to-live. -/
theorem bucket_diff_lt_ttl (a b : ℚ) (h : qfloor (qdiv a 1000) = qfloor (qdiv b 1000)) :
    ¬ (cacheMaxAge < qsub a b) := by
  rw [qfloor_eq, qfloor_eq, qdiv_eq, qdiv_eq] at h
  rw [cacheMaxAge, qsub_eq]
  intro hlt
  have h2 := Int.lt_floor_add_one ((a : ℚ) / 1000)
  have h3 := Int.floor_le ((b : ℚ) / 1000)
  rw [h] at h2
  have hd : a - b < 1000 := by linarith
  linarith

/-- The cache key only reads the clock through its 1-second bucket. -/
theorem routeCacheKey_bucket_eq (game : Game) (player : Player) (destination : Point)
    (now1 now2 : ℚ) (hb : qfloor (qdiv now1 1000) = qfloor (qdiv now2 1000)) :
    routeCacheKey game now1 player destination = routeCacheKey game now2 player destination := by
  rw [routeCacheKey, routeCacheKey, hb]

/-- After a `cacheSet` of result `v` at time `now1`, a call in the same
bucket at `now2` hits the stored entry and returns `v`. -/
theorem findRoute_after_set (game : Game) (player : Player) (destination : Point)
    (now1 now2 : ℚ) (c2 : CacheState) (pool2 : PoolState) (fuel : ℕ) (v : RouteResult)
    (hb : qfloor (qdiv now1 1000) = qfloor (qdiv now2 1000)) :
    (findRoute game now2 player destination
      (cacheSet c2 now1 (routeCacheKey game now1 player destination) v.path v.newDestination)
      pool2 fuel).1 = some (some v) := by
  have hK : routeCacheKey game now2 player destination =
      routeCacheKey game now1 player destination :=
    (routeCacheKey_bucket_eq game player destination now1 now2 hb).symm
  have hlk : cacheLookup
      (cacheSet c2 now1 (routeCacheKey game now1 player destination) v.path v.newDestination)
      (routeCacheKey game now1 player destination) =
      some ⟨v.path, v.newDestination, now1, 0⟩ :=
    cacheSet_lookup_self _ _ _ _ _
  have hget : cacheGet
      (cacheSet c2 now1 (routeCacheKey game now1 player destination) v.path v.newDestination)
      now2 (routeCacheKey game now1 player destination) =
      (some ⟨v.path, v.newDestination, now1, 0⟩,
        cacheErase (cacheSet c2 now1 (routeCacheKey game now1 player destination)
          v.path v.newDestination) (routeCacheKey game now1 player destination) ++
        [(routeCacheKey game now1 player destination,
          ⟨v.path, v.newDestination, now1, 1⟩)]) := by
    simp only [cacheGet, hlk]
    rw [if_neg (bucket_diff_lt_ttl now2 now1 (hb.symm))]
  simp only [findRoute, hK, hget]

/-- C3: two consecutive `findRoute` calls with the same game, mover,
start position and facing, the same integral destination, and clock
readings in the same 1-second fingerprint bucket return the same result,
provided the cache state is consistent (`CacheWF`, which `findRoute`
itself maintains) and the first call produced a route. -/
theorem findRoute_cache_idempotent (game : Game) (player : Player) (destination : Point)
    (now1 now2 : ℚ) (cache : CacheState) (pool : PoolState) (fuel : ℕ)
    (hwf : CacheWF cache)
    (hb : qfloor (qdiv now1 1000) = qfloor (qdiv now2 1000))
    (v : RouteResult)
    (hr : (findRoute game now1 player destination cache pool fuel).1 = some (some v)) :
    (findRoute game now2 player destination
      (findRoute game now1 player destination cache pool fuel).2.1
      (findRoute game now1 player destination cache pool fuel).2.2 fuel).1 = some (some v) := by
  have hK : routeCacheKey game now2 player destination =
      routeCacheKey game now1 player destination :=
    (routeCacheKey_bucket_eq game player destination now1 now2 hb).symm
  cases hlk : cacheLookup cache (routeCacheKey game now1 player destination) with
  | some r =>
    by_cases hexp : cacheMaxAge < qsub now1 r.timestamp
    · -- the stored entry expired: the first call misses and recomputes
      have hget1 : cacheGet cache now1 (routeCacheKey game now1 player destination) =
          (none, cacheErase cache (routeCacheKey game now1 player destination)) := by
        simp only [cacheGet, hlk]
        rw [if_pos hexp]
      cases hout : searchLoop game now1 player.id destination fuel
          ⟨some (startCandidate now1 player destination), startCandidate now1 player destination,
            [], [], (minDistancesPoolGet pool game.worldMap.width game.worldMap.height).1⟩ with
      | outOfFuel st =>
        rw [findRoute] at hr
        simp only [hget1, hout] at hr
        exact absurd hr (by simp)
      | found current table =>
        have hfr1 : (findRoute game now1 player destination cache pool fuel).1 =
            some (some (routeFromCandidate current none)) ∧
            (findRoute game now1 player destination cache pool fuel).2.1 =
              cacheSet (cacheErase cache (routeCacheKey game now1 player destination)) now1
                (routeCacheKey game now1 player destination)
                (routeFromCandidate current none).path
                (routeFromCandidate current none).newDestination := by
          rw [findRoute]
          simp only [hget1, hout]
          exact ⟨by trivial, by trivial⟩
        have hv : routeFromCandidate current none = v := by
          rw [hfr1.1] at hr
          exact Option.some.inj (Option.some.inj hr)
        rw [hfr1.2, hv]
        exact findRoute_after_set game player destination now1 now2 _ _ fuel v hb
      | exhausted best explored table =>
        by_cases h0 : best.length = 0
        · rw [findRoute] at hr
          simp only [hget1, hout] at hr
          rw [if_pos h0] at hr
          exact absurd (Option.some.inj hr) (by simp)
        · have hfr1 : (findRoute game now1 player destination cache pool fuel).1 =
              some (some (routeFromCandidate best (some best.position))) ∧
              (findRoute game now1 player destination cache pool fuel).2.1 =
                cacheSet (cacheErase cache (routeCacheKey game now1 player destination)) now1
                  (routeCacheKey game now1 player destination)
                  (routeFromCandidate best (some best.position)).path
                  (routeFromCandidate best (some best.position)).newDestination := by
            rw [findRoute]
            simp only [hget1, hout]
            rw [if_neg h0]
            exact ⟨by trivial, by trivial⟩
          have hv : routeFromCandidate best (some best.position) = v := by
            rw [hfr1.1] at hr
            exact Option.some.inj (Option.some.inj hr)
          rw [hfr1.2, hv]
          exact findRoute_after_set game player destination now1 now2 _ _ fuel v hb
    · -- a fresh hit: the entry is re-stored with a bumped hit count
      have hget1 : cacheGet cache now1 (routeCacheKey game now1 player destination) =
          (some r, cacheErase cache (routeCacheKey game now1 player destination) ++
            [(routeCacheKey game now1 player destination,
              { r with hitCount := r.hitCount + 1 })]) := by
        simp only [cacheGet, hlk]
        rw [if_neg hexp]
      have hfr1 : (findRoute game now1 player destination cache pool fuel).1 =
          some (some ⟨r.path, r.newDestination⟩) ∧
          (findRoute game now1 player destination cache pool fuel).2.1 =
            cacheErase cache (routeCacheKey game now1 player destination) ++
              [(routeCacheKey game now1 player destination,
                { r with hitCount := r.hitCount + 1 })] := by
        rw [findRoute]
        simp only [hget1]
        exact ⟨by trivial, by trivial⟩
      have hv : (⟨r.path, r.newDestination⟩ : RouteResult) = v := by
        rw [hfr1.1] at hr
        exact Option.some.inj (Option.some.inj hr)
      have hts : qfloor (qdiv r.timestamp 1000) = qfloor (qdiv now2 1000) := by
        have hmem := cacheLookup_mem cache _ r hlk
        have := hwf _ hmem
        rw [this]
        exact hb ▸ rfl
      have hlk2 : cacheLookup
          (cacheErase cache (routeCacheKey game now1 player destination) ++
            [(routeCacheKey game now1 player destination,
              { r with hitCount := r.hitCount + 1 })])
          (routeCacheKey game now1 player destination) =
          some { r with hitCount := r.hitCount + 1 } := by
        rw [cacheLookup_append, cacheLookup_erase_self, cacheLookup_cons, if_pos rfl]
      have hget2 : (cacheGet
          (cacheErase cache (routeCacheKey game now1 player destination) ++
            [(routeCacheKey game now1 player destination,
              { r with hitCount := r.hitCount + 1 })])
          now2 (routeCacheKey game now1 player destination)).1 =
          some { r with hitCount := r.hitCount + 1 } := by
        simp only [cacheGet, hlk2]
        rw [if_neg (bucket_diff_lt_ttl now2 r.timestamp (hts.symm))]
      rw [hfr1.2]
      rw [findRoute]
      simp only [hK]
      cases hg2 : cacheGet
          (cacheErase cache (routeCacheKey game now1 player destination) ++
            [(routeCacheKey game now1 player destination,
              { r with hitCount := r.hitCount + 1 })])
          now2 (routeCacheKey game now1 player destination) with
      | mk o c2 =>
        have ho : o = some { r with hitCount := r.hitCount + 1 } := by
          rw [← hget2, hg2]
        subst ho
        simp only []
        rw [← hv]
  | none =>
    -- a plain miss: the first call recomputes against the unchanged cache
    have hget1 : cacheGet cache now1 (routeCacheKey game now1 player destination) =
        (none, cache) := by
      simp only [cacheGet, hlk]
    cases hout : searchLoop game now1 player.id destination fuel
        ⟨some (startCandidate now1 player destination), startCandidate now1 player destination,
          [], [], (minDistancesPoolGet pool game.worldMap.width game.worldMap.height).1⟩ with
    | outOfFuel st =>
      rw [findRoute] at hr
      simp only [hget1, hout] at hr
      exact absurd hr (by simp)
    | found current table =>
      have hfr1 : (findRoute game now1 player destination cache pool fuel).1 =
          some (some (routeFromCandidate current none)) ∧
          (findRoute game now1 player destination cache pool fuel).2.1 =
            cacheSet cache now1 (routeCacheKey game now1 player destination)
              (routeFromCandidate current none).path
              (routeFromCandidate current none).newDestination := by
        rw [findRoute]
        simp only [hget1, hout]
        exact ⟨by trivial, by trivial⟩
      have hv : routeFromCandidate current none = v := by
        rw [hfr1.1] at hr
        exact Option.some.inj (Option.some.inj hr)
      rw [hfr1.2, hv]
      exact findRoute_after_set game player destination now1 now2 _ _ fuel v hb
    | exhausted best explored table =>
      by_cases h0 : best.length = 0
      · rw [findRoute] at hr
        simp only [hget1, hout] at hr
        rw [if_pos h0] at hr
        exact absurd (Option.some.inj hr) (by simp)
      · have hfr1 : (findRoute game now1 player destination cache pool fuel).1 =
            some (some (routeFromCandidate best (some best.position))) ∧
            (findRoute game now1 player destination cache pool fuel).2.1 =
              cacheSet cache now1 (routeCacheKey game now1 player destination)
                (routeFromCandidate best (some best.position)).path
                (routeFromCandidate best (some best.position)).newDestination := by
          rw [findRoute]
          simp only [hget1, hout]
          rw [if_neg h0]
          exact ⟨by trivial, by trivial⟩
        have hv : routeFromCandidate best (some best.position) = v := by
          rw [hfr1.1] at hr
          exact Option.some.inj (Option.some.inj hr)
        rw [hfr1.2, hv]
        exact findRoute_after_set game player destination now1 now2 _ _ fuel v hb

/-- Witness for C3: on an empty 3-by-1 corridor the first call computes a
two-waypoint route; half a second later, in the same fingerprint bucket,
the second call returns the identical result from the cache. -/
theorem findRoute_cache_idempotent_witness :
    (findRoute ⟨⟨[⟨"p1", ⟨0, 0⟩, ⟨1, 0⟩, 0, none, none⟩], []⟩, ⟨3, 1, [[[-1], [-1], [-1]]]⟩⟩ 500
      ⟨"p1", ⟨0, 0⟩, ⟨1, 0⟩, 0, none, none⟩ ⟨2, 0⟩
      (findRoute ⟨⟨[⟨"p1", ⟨0, 0⟩, ⟨1, 0⟩, 0, none, none⟩], []⟩, ⟨3, 1, [[[-1], [-1], [-1]]]⟩⟩ 0
        ⟨"p1", ⟨0, 0⟩, ⟨1, 0⟩, 0, none, none⟩ ⟨2, 0⟩ [] [] 10).2.1
      (findRoute ⟨⟨[⟨"p1", ⟨0, 0⟩, ⟨1, 0⟩, 0, none, none⟩], []⟩, ⟨3, 1, [[[-1], [-1], [-1]]]⟩⟩ 0
        ⟨"p1", ⟨0, 0⟩, ⟨1, 0⟩, 0, none, none⟩ ⟨2, 0⟩ [] [] 10).2.2 10).1 =
      some (some ⟨some [⟨⟨0, 0⟩, 0, ⟨1, 0⟩⟩, ⟨⟨2, 0⟩, Rat.divInt 8000 3, ⟨1, 0⟩⟩], none⟩) :=
  findRoute_cache_idempotent
    ⟨⟨[⟨"p1", ⟨0, 0⟩, ⟨1, 0⟩, 0, none, none⟩], []⟩, ⟨3, 1, [[[-1], [-1], [-1]]]⟩⟩
    ⟨"p1", ⟨0, 0⟩, ⟨1, 0⟩, 0, none, none⟩ ⟨2, 0⟩ 0 500 [] [] 10
    (fun e he => absurd he (List.not_mem_nil e)) (by decide)
    ⟨some [⟨⟨0, 0⟩, 0, ⟨1, 0⟩⟩, ⟨⟨2, 0⟩, Rat.divInt 8000 3, ⟨1, 0⟩⟩], none⟩ (by decide)

end SfTown
